import Mathlib

/-!
# govalidator: the validation orchestrator of `validator.go`

A shallow embedding of `validator.go` (package `govalidator`) and theorems about it.

* Go strings are Lean `String`s; the functions of package `strings` that the source calls
  are defined on the character lists.
* A Go map is an optional association list: `none` is the nil map, `some es` a map with the
  entries `es` (keys pairwise distinct in a well-formed map).  `range` visits the entries in
  list order, so a statement over all lists covers every iteration order.
* `panic` is an `Except` error; `Validate` returns `Except Panic MapData`.
-/

namespace govalidator

/-! ## Package `strings` -/

namespace strings

/-- Go `strings.HasPrefix(s, prefix)`. -/
def HasPrefix (s pre : String) : Bool :=
  pre.data.isPrefixOf s.data

/-- Go `strings.TrimPrefix(s, prefix)`: `s` without the leading `prefix`, or `s` itself. -/
def TrimPrefix (s pre : String) : String :=
  if HasPrefix s pre then ⟨s.data.drop pre.data.length⟩ else s

/-- Substring search on character lists. -/
def containsChars : List Char → List Char → Bool
  | [], sub => sub.isPrefixOf []
  | c :: cs, sub => sub.isPrefixOf (c :: cs) || containsChars cs sub

/-- Go `strings.Contains(s, substr)`. -/
def Contains (s substr : String) : Bool :=
  containsChars s.data substr.data

/-- The characters before the first occurrence of the non-empty separator `sep`
(all of them when `sep` does not occur). -/
def firstPiece : List Char → List Char → List Char
  | [], _ => []
  | c :: cs, sep => if sep.isPrefixOf (c :: cs) then [] else c :: firstPiece cs sep

/-- Go `strings.Split(s, sep)[0]` for a non-empty `sep`. -/
def SplitFirst (s sep : String) : String :=
  ⟨firstPiece s.data sep.data⟩

end strings

/-! ## Data model (`validator.go`, lines 9-28) -/

/-- A Go map with string keys: `none` is the nil map. -/
abbrev GoMap (β : Type) := Option (List (String × β))

namespace GoMap

/-- The entries visited by `range m` (none for the nil map). -/
def entries {β : Type} (m : GoMap β) : List (String × β) :=
  m.getD []

/-- Go `len(m)`. -/
def len {β : Type} (m : GoMap β) : Nat :=
  (entries m).length

/-- Lookup in an entry list. -/
def find {β : Type} : List (String × β) → String → Option β
  | [], _ => none
  | (k, x) :: rest, key => if k = key then some x else find rest key

/-- Go `x, ok := m[key]`: `some x` when `ok`, `none` otherwise (also on the nil map). -/
def get {β : Type} (m : GoMap β) (key : String) : Option β :=
  find (entries m) key

/-- The keys of the map, in entry order. -/
def keys {β : Type} (m : GoMap β) : List String :=
  (entries m).map Prod.fst

end GoMap

/-- Values of type `interface{}` as a decoded request holds them; `nil` is the nil
interface, which is also what indexing a map at a missing key yields. -/
inductive Value where
  | nil : Value
  | bool (b : Bool) : Value
  | num (n : Int) : Value
  | str (s : String) : Value
  deriving DecidableEq, Repr

/-- Go `MapData`: `map[string][]string`. -/
abbrev MapData := GoMap (List String)

/-- Go `Options`. -/
structure Options where
  Data : Value
  Request : GoMap Value
  RequiredDefault : Bool
  Rules : MapData
  Messages : MapData
  TagIdentifier : String
  FormSize : Int
  deriving DecidableEq

/-- Go `Validator`. -/
structure Validator where
  Opts : Options
  deriving DecidableEq

/-- Go `New`. -/
def New (opts : Options) : Validator :=
  { Opts := opts }

/-- Go `(*Validator).SetDefaultRequired`. -/
def Validator.SetDefaultRequired (v : Validator) (required : Bool) : Validator :=
  { v with Opts := { v.Opts with RequiredDefault := required } }

/-! ## `getCustomMessage` (`validator.go`, lines 37-50) -/

/-- The body of `for _, m := range msgList` in `getCustomMessage`; `rule` is the loop-carried
variable that the body overwrites. -/
def getCustomMessageLoop : List String → String → String
  | [], _ => ""
  | m :: rest, rule =>
    let rule := if strings.Contains rule ":" then strings.SplitFirst rule ":" else rule
    if strings.HasPrefix m (rule ++ ":") then strings.TrimPrefix m (rule ++ ":")
    else getCustomMessageLoop rest rule

/-- Go `(*Validator).getCustomMessage`. -/
def Validator.getCustomMessage (v : Validator) (field rule : String) : String :=
  match GoMap.get v.Opts.Messages field with
  | some msgList => getCustomMessageLoop msgList rule
  | none => ""

/-! ## The matching algorithm of the message resolver, as a search -/

/-- The bare name of a rule specification or of an override: its text before its first `:`,
and all of its text when it has no `:` (as for the rule specification `required`). -/
def bareName (s : String) : String :=
  ⟨s.data.takeWhile fun c => c != ':'⟩

/-- The message text of an override: everything after its first `:`. -/
def messageText (s : String) : String :=
  ⟨(s.data.dropWhile fun c => c != ':').drop 1⟩

/-- The matching algorithm in the words of the spec: the first override of the list whose
bare name equals the bare rule name wins and its message text is returned; the empty string
when there is none. -/
def firstOverrideByBareName (msgList : List String) (rule : String) : String :=
  match msgList.find? fun m => decide (bareName m = bareName rule) with
  | some m => messageText m
  | none => ""

/-- An override that can be selected for the bare rule name `bare`: it contains a `:` and
its text before the first `:` is `bare`. -/
def isOverrideFor (bare m : String) : Bool :=
  decide (':' ∈ m.data) && decide (bareName m = bare)

/-- The matching algorithm restricted to the overrides that contain a `:`. -/
def firstOverrideWithColon (msgList : List String) (rule : String) : String :=
  match msgList.find? (isOverrideFor (bareName rule)) with
  | some m => messageText m
  | none => ""

/-! ## Collaborators of `validator.go` that live in other files of the package -/

/-- The check-function interface of the rule registry: from the field value and the rule
parameters to `(passed, defaultMessage)`. -/
abbrev CheckFn := Value → List String → Bool × String

/-- The rule registry that `Validate` calls into. `isRuleExist` is the package function of
that name (its body is in another file, so it is a parameter here); `lookup` maps a rule
name to its check function. -/
structure Registry where
  isRuleExist : String → Bool
  lookup : String → Option CheckFn

/-- The pieces of a character list between occurrences of `sep`. -/
def splitOnChar (sep : Char) : List Char → List (List Char)
  | [] => [[]]
  | c :: cs =>
    if c = sep then [] :: splitOnChar sep cs
    else
      match splitOnChar sep cs with
      | [] => [[c]]
      | p :: ps => (c :: p) :: ps

/-- Modelled from the spec: the Rule Specification Parser (its code is not in
`validator.go`). "Given a rule specification string, return the rule name and the list of
parameters (empty if none). Splitting is on the first `:` character only [...]. Parameters,
if present, are comma-separated and passed through unparsed." -/
def parseRule (rule : String) : String × List String :=
  let name : String := ⟨rule.data.takeWhile (fun c => c != ':')⟩
  match rule.data.dropWhile (fun c => c != ':') with
  | [] => (name, [])
  | _ :: params => (name, (splitOnChar ',' params).map String.mk)

/-- Modelled from the spec: `isContainRequiredField` (its code is not in `validator.go`).
"None of the field's rule specifications is the bare rule name `required`"; "the source's
exemption logic only checks for a rule literally named `required` (not its parameterized
forms)". -/
def isContainRequiredField : List String → Bool
  | [] => false
  | rule :: rest => if rule = "required" then true else isContainRequiredField rest

/-- Go `errsBag[field] = append(errsBag[field], msg)` on the entries of a non-nil map. -/
def appendMessage : List (String × List String) → String → String → List (String × List String)
  | [], field, msg => [(field, [msg])]
  | (k, msgs) :: rest, field, msg =>
    if k = field then (k, msgs ++ [msg]) :: rest else (k, msgs) :: appendMessage rest field msg

/-- The outcome of one rule's check on a value: `none` when the check passes (or the
registry has no check under the rule's name), `some d` with the check's default message
`d` when it fails. -/
def checkRule (reg : Registry) (rule : String) (value : Value) : Option String :=
  match reg.lookup (parseRule rule).1 with
  | none => none
  | some check =>
    let r := check value (parseRule rule).2
    if r.1 then none else some r.2

/-- The message recorded for a failing rule: the custom override when there is one (non-empty
`msg`), the check's default message otherwise. -/
def resolveMessage (msg defaultMessage : String) : String :=
  if msg = "" then defaultMessage else msg

/-- Modelled from the spec: `validateCustomRules` (its code is not in `validator.go`).
"Parse it (4.1), look up the check (4.2) [...], invoke the check with the field's current
Request Value [...], and on failure append the resolved (custom or default) message to that
field's entry in the Error Bag." -/
def validateCustomRules (reg : Registry) (field rule msg : String) (value : Value)
    (errsBag : List (String × List String)) : List (String × List String) :=
  match checkRule reg rule value with
  | none => errsBag
  | some defaultMessage => appendMessage errsBag field (resolveMessage msg defaultMessage)

/-! ## `getNonRequiredFields` (`validator.go`, lines 94-107) -/

/-- The loop `for k, r := range v.Opts.Rules` of `getNonRequiredFields`; the result lists the
keys put into the set `nr`. -/
def nonRequiredLoop (inputs : GoMap Value) : List (String × List String) → List String
  | [] => []
  | (k, r) :: rest =>
    if (GoMap.get inputs k).isNone then
      if !isContainRequiredField r then k :: nonRequiredLoop inputs rest
      else nonRequiredLoop inputs rest
    else nonRequiredLoop inputs rest

/-- Go `(*Validator).getNonRequiredFields`; the set `map[string]struct{}` is the list of its
keys. -/
def Validator.getNonRequiredFields (v : Validator) : List String :=
  let inputs := v.Opts.Request
  if !v.Opts.RequiredDefault then nonRequiredLoop inputs (GoMap.entries v.Opts.Rules)
  else []

/-! ## `Validate` (`validator.go`, lines 62-90) -/

/-- The value a `panic` of `Validate` carries. -/
inductive Panic where
  /-- Covers `panic(errValidateArgsMismatch)`. -/
  | validateArgsMismatch : Panic
  /-- Covers `panic(fmt.Errorf("govalidator: %s is not a valid rule", rule))`. -/
  | invalidRule (rule : String) : Panic
  deriving DecidableEq, Repr

/-- One call `validateCustomRules(field, rule, msg, reqVal, errsBag)`. -/
structure Call where
  field : String
  rule : String
  msg : String
  reqVal : Value
  deriving DecidableEq, Repr

/-- A run of `Validate`: the rule checks it dispatched, in order, and how it ended. -/
structure Run where
  calls : List Call
  result : Except Panic MapData

/-- Go `reqVal := v.Opts.Request[field]`: the nil interface when the key is missing. -/
def Validator.requestValue (v : Validator) (field : String) : Value :=
  (GoMap.get v.Opts.Request field).getD Value.nil

/-- The inner loop `for _, rule := range rules` of `Validate`, from the calls made and the
error bag built so far. -/
def rulesLoop (reg : Registry) (v : Validator) (field : String) :
    List String → List Call → List (String × List String) →
      List Call × Except Panic (List (String × List String))
  | [], calls, errsBag => (calls, Except.ok errsBag)
  | rule :: rest, calls, errsBag =>
    if !reg.isRuleExist rule then (calls, Except.error (Panic.invalidRule rule))
    else
      let msg := v.getCustomMessage field rule
      let reqVal := v.requestValue field
      rulesLoop reg v field rest (calls ++ [⟨field, rule, msg, reqVal⟩])
        (validateCustomRules reg field rule msg reqVal errsBag)

/-- The outer loop `for field, rules := range v.Opts.Rules` of `Validate`. -/
def fieldsLoop (reg : Registry) (v : Validator) (nr : List String) :
    List (String × List String) → List Call → List (String × List String) →
      List Call × Except Panic (List (String × List String))
  | [], calls, errsBag => (calls, Except.ok errsBag)
  | (field, rules) :: rest, calls, errsBag =>
    if field ∈ nr then fieldsLoop reg v nr rest calls errsBag
    else
      match rulesLoop reg v field rules calls errsBag with
      | (calls1, Except.error e) => (calls1, Except.error e)
      | (calls1, Except.ok errsBag1) => fieldsLoop reg v nr rest calls1 errsBag1

/-- Go `(*Validator).Validate`, with the record of the rule checks it dispatched. -/
def Validator.ValidateRun (reg : Registry) (v : Validator) : Run :=
  if GoMap.len v.Opts.Rules = 0 ∨ v.Opts.Request = none then
    ⟨[], Except.error Panic.validateArgsMismatch⟩
  else
    let nr := v.getNonRequiredFields
    match fieldsLoop reg v nr (GoMap.entries v.Opts.Rules) [] [] with
    | (calls, Except.error e) => ⟨calls, Except.error e⟩
    | (calls, Except.ok errsBag) => ⟨calls, Except.ok (some errsBag)⟩

/-- Go `(*Validator).Validate`: the returned error bag, or the panic. -/
def Validator.Validate (reg : Registry) (v : Validator) : Except Panic MapData :=
  (v.ValidateRun reg).result

/-! ## Closed forms of the loops, used to state what `Validate` computes -/

/-- The messages `Validate` records for `field` with rule list `rules`: one per rule whose
check fails on the field's request value, in the order of `rules`. -/
def fieldMessages (reg : Registry) (v : Validator) (field : String) (rules : List String) :
    List String :=
  rules.filterMap fun rule =>
    (checkRule reg rule (v.requestValue field)).map
      (resolveMessage (v.getCustomMessage field rule))

/-- The calls `Validate` makes for `field` with rule list `rules`. -/
def fieldCalls (v : Validator) (field : String) (rules : List String) : List Call :=
  rules.map fun rule => ⟨field, rule, v.getCustomMessage field rule, v.requestValue field⟩

/-- Appending several messages to the entry of `field`, one after the other. -/
def appendMessages (errsBag : List (String × List String)) (field : String) :
    List String → List (String × List String)
  | [] => errsBag
  | m :: ms => appendMessages (appendMessage errsBag field m) field ms

/-- The error bag after the fields `es` have been processed, when no rule panics. -/
def processFields (reg : Registry) (v : Validator) (nr : List String) :
    List (String × List String) → List (String × List String) → List (String × List String)
  | [], errsBag => errsBag
  | (field, rules) :: rest, errsBag =>
    if field ∈ nr then processFields reg v nr rest errsBag
    else processFields reg v nr rest (appendMessages errsBag field (fieldMessages reg v field rules))

/-- The calls made while the fields `es` are processed, when no rule panics. -/
def fieldsCalls (v : Validator) (nr : List String) : List (String × List String) → List Call
  | [] => []
  | (field, rules) :: rest =>
    if field ∈ nr then fieldsCalls v nr rest
    else fieldCalls v field rules ++ fieldsCalls v nr rest

/-- An entry of the error bag after some more messages were appended to it. -/
def extendEntry (old : Option (List String)) (msgs : List String) : Option (List String) :=
  if msgs = [] then old else some (old.getD [] ++ msgs)

/-- Every rule of every field outside `nr` is registered. -/
def allRegistered (reg : Registry) (nr : List String) (es : List (String × List String)) : Prop :=
  ∀ field rules, (field, rules) ∈ es → field ∉ nr → ∀ rule ∈ rules, reg.isRuleExist rule = true

/-- A field has a failing rule: some rule of its list is rejected on its request value. -/
def hasFailingRule (reg : Registry) (v : Validator) (field : String) (rules : List String) :
    Prop :=
  ∃ rule ∈ rules, (checkRule reg rule (v.requestValue field)).isSome = true

/-! ## An example registry and example validators -/

/-- Decimal value of a string of digits. -/
def natOfDigits (cs : List Char) : Nat :=
  cs.foldl (fun n c => 10 * n + (c.toNat - 48)) 0

/-- Example check `required`: rejects the nil value and the empty string. -/
def requiredCheck : CheckFn := fun value _ =>
  match value with
  | Value.nil => (false, "is required")
  | Value.str s => (decide (s ≠ ""), "is required")
  | _ => (true, "is required")

/-- Example check `digits:n`: accepts the strings of exactly `n` decimal digits. -/
def digitsCheck : CheckFn := fun value params =>
  match value, params with
  | Value.str s, [n] =>
    (s.data.all Char.isDigit && decide (s.data.length = natOfDigits n.data),
      "has the wrong number of digits")
  | _, _ => (false, "has the wrong number of digits")

/-- Example check `between:lo,hi`: accepts the numbers, and the strings whose length is,
between `lo` and `hi`. -/
def betweenCheck : CheckFn := fun value params =>
  match value, params with
  | Value.num n, [lo, hi] =>
    (decide ((natOfDigits lo.data : Int) ≤ n ∧ n ≤ (natOfDigits hi.data : Int)), "is out of range")
  | Value.str s, [lo, hi] =>
    (decide (natOfDigits lo.data ≤ s.data.length ∧ s.data.length ≤ natOfDigits hi.data),
      "is out of range")
  | _, _ => (false, "is out of range")

/-- Example check `email`: accepts the strings that contain an `@`. -/
def emailCheck : CheckFn := fun value _ =>
  match value with
  | Value.str s => (s.data.contains '@', "is not an email address")
  | _ => (false, "is not an email address")

/-- Example rule table. -/
def exampleLookup (name : String) : Option CheckFn :=
  if name = "required" then some requiredCheck
  else if name = "digits" then some digitsCheck
  else if name = "between" then some betweenCheck
  else if name = "email" then some emailCheck
  else none

/-- Example registry: a rule exists when the table has a check under its name. -/
def exampleRegistry : Registry where
  isRuleExist := fun rule => (exampleLookup (parseRule rule).1).isSome
  lookup := exampleLookup

/-- Options with every field at its Go zero value: `Options{}`. -/
def zeroOptions : Options where
  Data := Value.nil
  Request := none
  RequiredDefault := false
  Rules := none
  Messages := none
  TagIdentifier := ""
  FormSize := 0

/-- The validator of `TestValidator_Validate_panic`: `New(Options{})`. -/
def panicValidator : Validator :=
  New zeroOptions

/-- The first validator of `TestValidator_Validate`. -/
def testValidator : Validator :=
  New { zeroOptions with
    Request := some [("name", Value.str "John Doe"), ("username", Value.str "jhondoe"),
      ("email", Value.str "john@mail.com"), ("zip", Value.str "8233")]
    Rules := some [("name", ["required"]), ("age", ["between:5,16"]), ("email", ["email"]),
      ("zip", ["digits:4"])] }

/-- A validator whose only rule is unregistered and sits on a field missing from the
(empty, non-nil) request. -/
def unknownRuleOnExemptField : Validator :=
  New { zeroOptions with
    Request := some []
    Rules := some [("age", ["nosuchrule"])] }

/-- The validator `unknownRuleOnExemptField` after `SetDefaultRequired(true)`. -/
def unknownRuleOnRequiredField : Validator :=
  unknownRuleOnExemptField.SetDefaultRequired true

/-- The validator of `TestValidator_Validate` after `SetDefaultRequired(true)`. -/
def requiredDefaultValidator : Validator :=
  testValidator.SetDefaultRequired true

/-- A validator whose field `zip` fails its first and third rule and passes the second, with
a custom message for `digits` only. -/
def zipValidator : Validator :=
  New { zeroOptions with
    Request := some [("zip", Value.str "12a45")]
    Rules := some [("zip", ["digits:4", "required", "between:1,3"])]
    Messages := some [("zip", ["digits:Zip must be 4 digits"])] }

/-- A validator whose first override for `zip` has no `:` and is the bare rule name. -/
def colonFreeOverrideValidator : Validator :=
  New { zeroOptions with
    Messages := some [("zip", ["digits", "digits:Zip must be 4 digits"])] }

/-- A validator whose overrides for `zip` are for rule names that extend, or are the start
of, the rule name `digits`. -/
def otherRuleOverrideValidator : Validator :=
  New { zeroOptions with
    Messages := some [("zip", ["digits_between:Zip has a bad length", "dig:Zip is bad"])] }

/-- The request of `TestValidator_Validate` with rules on fields that are all present. -/
def passingValidator : Validator :=
  New { zeroOptions with
    Request := some [("name", Value.str "John Doe"), ("username", Value.str "jhondoe"),
      ("email", Value.str "john@mail.com"), ("zip", Value.str "8233")]
    Rules := some [("name", ["required"]), ("email", ["email"]), ("zip", ["digits:4"])] }

/-- A validator whose first override for `zip` is `digits:` with an empty text, followed by
an override for the same rule with a text. -/
def emptyTextOverrideValidator : Validator :=
  New { zeroOptions with
    Messages := some [("zip", ["digits:", "digits:Zip must be 4 digits"])] }

/-- A validator with two failing fields. -/
def twoFailuresValidator : Validator :=
  New { zeroOptions with
    Request := some [("zip", Value.str "12")]
    Rules := some [("name", ["required"]), ("zip", ["digits:4"])] }

/-- The validator `zipValidator` with one more field, `name`, that is required and missing,
and an override for it. -/
def zipAndNameValidator : Validator :=
  New { zeroOptions with
    Request := some [("zip", Value.str "12a45")]
    Rules := some [("name", ["required"]), ("zip", ["digits:4", "required", "between:1,3"])]
    Messages := some [("name", ["required:Who are you?"]),
      ("zip", ["digits:Zip must be 4 digits"])] }

/-- The validator of `TestValidator_Validate_NULLValue`: `option` and `active` are present in
the request with the value nil. -/
def nullValueValidator : Validator :=
  New { zeroOptions with
    Request := some [("name", Value.str "John Doe"), ("count", Value.num 0),
      ("option", Value.nil), ("active", Value.nil)]
    Rules := some [("name", ["required"]), ("count", ["required"]), ("option", ["required"]),
      ("active", ["required"])] }

/-- A validator whose field `option` is present with the value nil and has an unregistered
rule ahead of `required`. -/
def nullValueAbortValidator : Validator :=
  New { zeroOptions with
    Request := some [("option", Value.nil)]
    Rules := some [("option", ["nosuchrule", "required"])] }

/-! ## The receiver, the iteration order and the entry of one field -/

/-- Go `(*Validator).Validate` as a call on its receiver: the receiver after the call and
the outcome. `Validate`, `getNonRequiredFields` and `getCustomMessage` contain no assignment
to `v.Opts` (the only assignments are to the locals `errsBag`, `nr`, `msg`, `reqVal` and to
the parameter `rule`), so the receiver comes back as it was. -/
def Validator.ValidateCall (reg : Registry) (v : Validator) : Validator × Except Panic MapData :=
  (v, v.Validate reg)

/-- The validator `v` with its Rules map visited in the order `es`. -/
def Validator.withRulesOrder (v : Validator) (es : List (String × List String)) : Validator :=
  { v with Opts := { v.Opts with Rules := some es } }

/-- The validator `v` with another Request map. -/
def Validator.withRequest (v : Validator) (request : GoMap Value) : Validator :=
  { v with Opts := { v.Opts with Request := request } }

/-- The entry of the error bag for one field, computed from what the options hold for that
field alone: the flag RequiredDefault, `Rules[field]`, `Request[field]` and
`Messages[field]`, each `none` when the key is missing. -/
def fieldEntry (reg : Registry) (requiredDefault : Bool) (rules : Option (List String))
    (value : Option Value) (overrides : Option (List String)) : Option (List String) :=
  match rules with
  | none => none
  | some rs =>
    if requiredDefault = false ∧ value = none ∧ isContainRequiredField rs = false then none
    else
      extendEntry none (rs.filterMap fun rule =>
        (checkRule reg rule (value.getD Value.nil)).map
          (resolveMessage
            (match overrides with
              | some msgList => getCustomMessageLoop msgList rule
              | none => "")))

/-! ## Lemmas on the loops -/

theorem rulesLoop_ok (reg : Registry) (v : Validator) (field : String) (rules : List String) :
    ∀ (calls : List Call) (errsBag : List (String × List String)),
      (∀ rule ∈ rules, reg.isRuleExist rule = true) →
      rulesLoop reg v field rules calls errsBag =
        (calls ++ fieldCalls v field rules,
          Except.ok (appendMessages errsBag field (fieldMessages reg v field rules))) := by
  induction rules with
  | nil => intro calls errsBag _; simp [rulesLoop, fieldCalls, fieldMessages, appendMessages]
  | cons rule rest ih =>
    intro calls errsBag h
    have h1 : reg.isRuleExist rule = true := h rule (List.mem_cons_self _ _)
    have h2 : ∀ r ∈ rest, reg.isRuleExist r = true := fun r hr => h r (List.mem_cons_of_mem _ hr)
    simp only [rulesLoop, h1, Bool.not_true, Bool.false_eq_true, if_false]
    rw [ih _ _ h2]
    simp only [fieldCalls, List.map_cons, List.append_assoc, List.singleton_append,
      fieldMessages, List.filterMap_cons, validateCustomRules]
    cases hc : checkRule reg rule (v.requestValue field) <;> simp [appendMessages]

theorem rulesLoop_error (reg : Registry) (v : Validator) (field : String) (rules : List String) :
    ∀ (calls : List Call) (errsBag : List (String × List String)),
      (∃ rule ∈ rules, reg.isRuleExist rule = false) →
      ∃ calls1 rule, rule ∈ rules ∧ reg.isRuleExist rule = false ∧
        rulesLoop reg v field rules calls errsBag = (calls1, Except.error (Panic.invalidRule rule)) := by
  induction rules with
  | nil => intro _ _ h; obtain ⟨r, hr, _⟩ := h; simp at hr
  | cons rule rest ih =>
    intro calls errsBag h
    cases h1 : reg.isRuleExist rule with
    | false =>
      exact ⟨calls, rule, List.mem_cons_self _ _, h1, by simp [rulesLoop, h1]⟩
    | true =>
      have h2 : ∃ r ∈ rest, reg.isRuleExist r = false := by
        obtain ⟨r, hr, hf⟩ := h
        rcases List.mem_cons.1 hr with rfl | hr
        · rw [h1] at hf; cases hf
        · exact ⟨r, hr, hf⟩
      obtain ⟨c1, r, hr, hf, he⟩ := ih (calls ++ [⟨field, rule, v.getCustomMessage field rule,
        v.requestValue field⟩]) (validateCustomRules reg field rule (v.getCustomMessage field rule)
          (v.requestValue field) errsBag) h2
      exact ⟨c1, r, List.mem_cons_of_mem _ hr, hf, by simp [rulesLoop, h1, he]⟩

theorem fieldsLoop_ok (reg : Registry) (v : Validator) (nr : List String)
    (es : List (String × List String)) :
    ∀ (calls : List Call) (errsBag : List (String × List String)),
      allRegistered reg nr es →
      fieldsLoop reg v nr es calls errsBag =
        (calls ++ fieldsCalls v nr es, Except.ok (processFields reg v nr es errsBag)) := by
  induction es with
  | nil => intro calls errsBag _; simp [fieldsLoop, fieldsCalls, processFields]
  | cons e rest ih =>
    obtain ⟨field, rules⟩ := e
    intro calls errsBag h
    have hrest : allRegistered reg nr rest :=
      fun f rs hm hn => h f rs (List.mem_cons_of_mem _ hm) hn
    by_cases hex : field ∈ nr
    · simp only [fieldsLoop, fieldsCalls, processFields, hex, if_true]
      exact ih _ _ hrest
    · have hreg : ∀ rule ∈ rules, reg.isRuleExist rule = true :=
        h field rules (List.mem_cons_self _ _) hex
      simp only [fieldsLoop, fieldsCalls, processFields, hex, if_false]
      rw [rulesLoop_ok reg v field rules calls errsBag hreg]
      simp only
      rw [ih _ _ hrest, List.append_assoc]

theorem fieldsLoop_error (reg : Registry) (v : Validator) (nr : List String)
    (es : List (String × List String)) :
    ∀ (calls : List Call) (errsBag : List (String × List String)),
      ¬ allRegistered reg nr es →
      ∃ calls1 field rules rule, (field, rules) ∈ es ∧ field ∉ nr ∧ rule ∈ rules ∧
        reg.isRuleExist rule = false ∧
        fieldsLoop reg v nr es calls errsBag = (calls1, Except.error (Panic.invalidRule rule)) := by
  induction es with
  | nil => intro _ _ h; exact absurd (fun _ _ hm => by simp at hm) h
  | cons e rest ih =>
    obtain ⟨field, rules⟩ := e
    intro calls errsBag h
    by_cases hex : field ∈ nr
    · have hrest : ¬ allRegistered reg nr rest := by
        intro hr
        apply h
        intro f rs hm hn
        rcases List.mem_cons.1 hm with heq | hm
        · cases heq; exact absurd hex hn
        · exact hr f rs hm hn
      obtain ⟨c1, f, rs, r, hm, hn, hr, hf, he⟩ := ih calls errsBag hrest
      exact ⟨c1, f, rs, r, List.mem_cons_of_mem _ hm, hn, hr, hf, by
        simp only [fieldsLoop, hex, if_true]; exact he⟩
    · by_cases hreg : ∀ rule ∈ rules, reg.isRuleExist rule = true
      · have hrest : ¬ allRegistered reg nr rest := by
          intro hr
          apply h
          intro f rs hm hn
          rcases List.mem_cons.1 hm with heq | hm
          · cases heq; exact hreg
          · exact hr f rs hm hn
        obtain ⟨c1, f, rs, r, hm, hn, hr, hf, he⟩ :=
          ih (calls ++ fieldCalls v field rules)
            (appendMessages errsBag field (fieldMessages reg v field rules)) hrest
        refine ⟨c1, f, rs, r, List.mem_cons_of_mem _ hm, hn, hr, hf, ?_⟩
        simp only [fieldsLoop, hex, if_false]
        rw [rulesLoop_ok reg v field rules calls errsBag hreg]
        exact he
      · have hbad : ∃ rule ∈ rules, reg.isRuleExist rule = false := by
          by_contra hc
          apply hreg
          intro rule hr
          cases hx : reg.isRuleExist rule with
          | true => rfl
          | false => exact absurd ⟨rule, hr, hx⟩ hc
        obtain ⟨c1, r, hr, hf, he⟩ := rulesLoop_error reg v field rules calls errsBag hbad
        refine ⟨c1, field, rules, r, List.mem_cons_self _ _, hex, hr, hf, ?_⟩
        simp only [fieldsLoop, hex, if_false]
        rw [he]

/-- What a returning `Validate` computes: the panics are excluded exactly by non-empty
rules, a non-nil request and registered rules on the fields that are not exempt. -/
theorem ValidateRun_ok (reg : Registry) (v : Validator)
    (hrules : GoMap.len v.Opts.Rules ≠ 0) (hreq : v.Opts.Request ≠ none)
    (hreg : allRegistered reg v.getNonRequiredFields (GoMap.entries v.Opts.Rules)) :
    v.ValidateRun reg =
      ⟨fieldsCalls v v.getNonRequiredFields (GoMap.entries v.Opts.Rules),
        Except.ok (some (processFields reg v v.getNonRequiredFields
          (GoMap.entries v.Opts.Rules) []))⟩ := by
  unfold Validator.ValidateRun
  rw [if_neg (by simp [hrules, hreq])]
  simp only
  rw [fieldsLoop_ok reg v _ _ [] [] hreg]
  simp

theorem ValidateRun_error (reg : Registry) (v : Validator)
    (hrules : GoMap.len v.Opts.Rules ≠ 0) (hreq : v.Opts.Request ≠ none)
    (hreg : ¬ allRegistered reg v.getNonRequiredFields (GoMap.entries v.Opts.Rules)) :
    ∃ calls field rules rule, (field, rules) ∈ GoMap.entries v.Opts.Rules ∧
      field ∉ v.getNonRequiredFields ∧ rule ∈ rules ∧ reg.isRuleExist rule = false ∧
      v.ValidateRun reg = ⟨calls, Except.error (Panic.invalidRule rule)⟩ := by
  obtain ⟨c1, f, rs, r, hm, hn, hr, hf, he⟩ :=
    fieldsLoop_error reg v v.getNonRequiredFields (GoMap.entries v.Opts.Rules) [] [] hreg
  refine ⟨c1, f, rs, r, hm, hn, hr, hf, ?_⟩
  unfold Validator.ValidateRun
  rw [if_neg (by simp [hrules, hreq])]
  simp only
  rw [he]

/-- From a returned error bag back to the conditions under which `Validate` returns. -/
theorem Validate_ok_inv (reg : Registry) (v : Validator) (bag : MapData)
    (h : v.Validate reg = Except.ok bag) :
    GoMap.len v.Opts.Rules ≠ 0 ∧ v.Opts.Request ≠ none ∧
    allRegistered reg v.getNonRequiredFields (GoMap.entries v.Opts.Rules) ∧
    (v.ValidateRun reg).calls = fieldsCalls v v.getNonRequiredFields (GoMap.entries v.Opts.Rules) ∧
    bag = some (processFields reg v v.getNonRequiredFields (GoMap.entries v.Opts.Rules) []) := by
  have hpre : ¬ (GoMap.len v.Opts.Rules = 0 ∨ v.Opts.Request = none) := by
    intro hc
    simp [Validator.Validate, Validator.ValidateRun, hc] at h
  have hrules : GoMap.len v.Opts.Rules ≠ 0 := fun hc => hpre (Or.inl hc)
  have hreq : v.Opts.Request ≠ none := fun hc => hpre (Or.inr hc)
  have hreg : allRegistered reg v.getNonRequiredFields (GoMap.entries v.Opts.Rules) := by
    by_contra hc
    obtain ⟨c1, f, rs, r, _, _, _, _, he⟩ := ValidateRun_error reg v hrules hreq hc
    simp [Validator.Validate, he] at h
  have hrun := ValidateRun_ok reg v hrules hreq hreg
  refine ⟨hrules, hreq, hreg, by rw [hrun], ?_⟩
  simp only [Validator.Validate, hrun, Except.ok.injEq] at h
  exact h.symm

/-! ## Lemmas on the error bag -/

theorem find_appendMessage (errsBag : List (String × List String)) (field msg k : String) :
    GoMap.find (appendMessage errsBag field msg) k =
      if k = field then some ((GoMap.find errsBag field).getD [] ++ [msg])
      else GoMap.find errsBag k := by
  induction errsBag with
  | nil =>
    by_cases h : k = field
    · simp [appendMessage, GoMap.find, h]
    · have h2 : ¬ field = k := fun hc => h hc.symm
      simp [appendMessage, GoMap.find, h, h2]
  | cons e rest ih =>
    obtain ⟨k1, msgs⟩ := e
    by_cases h1 : k1 = field
    · subst h1
      by_cases h : k = k1
      · subst h; simp [appendMessage, GoMap.find]
      · have h2 : ¬ k1 = k := fun hc => h hc.symm
        simp [appendMessage, GoMap.find, h, h2]
    · by_cases h : k = field
      · subst h
        simp [appendMessage, GoMap.find, h1, ih]
      · by_cases h3 : k1 = k
        · simp [appendMessage, GoMap.find, h1, h, h3]
        · simp [appendMessage, GoMap.find, h1, h, h3, ih]

theorem find_appendMessages (field k : String) (msgs : List String) :
    ∀ errsBag : List (String × List String),
      GoMap.find (appendMessages errsBag field msgs) k =
        if k = field then extendEntry (GoMap.find errsBag field) msgs
        else GoMap.find errsBag k := by
  induction msgs with
  | nil => intro errsBag; by_cases h : k = field <;> simp [appendMessages, extendEntry, h]
  | cons m ms ih =>
    intro errsBag
    rw [appendMessages, ih, find_appendMessage, find_appendMessage]
    by_cases h : k = field
    · simp only [h, if_true, extendEntry, Option.getD_some, List.append_assoc,
        List.singleton_append]
      by_cases hms : ms = [] <;> simp [hms]
    · simp [h]

/-- Fields that are exempt, or not among the processed entries, keep their entry. -/
theorem find_processFields_frame (reg : Registry) (v : Validator) (nr : List String)
    (f : String) (es : List (String × List String)) :
    ∀ errsBag : List (String × List String),
      (f ∈ nr ∨ f ∉ es.map Prod.fst) →
      GoMap.find (processFields reg v nr es errsBag) f = GoMap.find errsBag f := by
  induction es with
  | nil => intro errsBag _; rfl
  | cons e rest ih =>
    obtain ⟨field, rules⟩ := e
    intro errsBag h
    have hrest : f ∈ nr ∨ f ∉ rest.map Prod.fst := by
      rcases h with h | h
      · exact Or.inl h
      · exact Or.inr (fun hc => h (by simp only [List.map_cons]; exact List.mem_cons_of_mem _ hc))
    by_cases hex : field ∈ nr
    · simp only [processFields, hex, if_true]
      exact ih _ hrest
    · have hne : f ≠ field := by
        rintro rfl
        rcases h with h | h
        · exact hex h
        · exact h (by simp)
      simp only [processFields, hex, if_false]
      rw [ih _ hrest, find_appendMessages, if_neg hne]

/-- A field that is processed gets its messages appended, in rule order. -/
theorem find_processFields_entry (reg : Registry) (v : Validator) (nr : List String)
    (f : String) (rs : List String) (es : List (String × List String)) :
    ∀ errsBag : List (String × List String),
      (es.map Prod.fst).Nodup → (f, rs) ∈ es → f ∉ nr →
      GoMap.find (processFields reg v nr es errsBag) f =
        extendEntry (GoMap.find errsBag f) (fieldMessages reg v f rs) := by
  induction es with
  | nil => intro _ _ hm; simp at hm
  | cons e rest ih =>
    obtain ⟨field, rules⟩ := e
    intro errsBag hnd hm hn
    simp only [List.map_cons, List.nodup_cons] at hnd
    rcases List.mem_cons.1 hm with heq | hm2
    · cases heq
      simp only [processFields, hn, if_false]
      rw [find_processFields_frame reg v nr f rest _ (Or.inr hnd.1), find_appendMessages, if_pos rfl]
    · have hne : f ≠ field := by
        intro hc
        exact hnd.1 (List.mem_map.2 ⟨(f, rs), hm2, hc⟩)
      by_cases hex : field ∈ nr
      · simp only [processFields, hex, if_true]
        exact ih _ hnd.2 hm2 hn
      · simp only [processFields, hex, if_false]
        rw [ih _ hnd.2 hm2 hn, find_appendMessages, if_neg hne]

/-! ## Lemmas on `getNonRequiredFields` -/

theorem isContainRequiredField_iff (rules : List String) :
    isContainRequiredField rules = true ↔ "required" ∈ rules := by
  induction rules with
  | nil => simp [isContainRequiredField]
  | cons rule rest ih =>
    by_cases h : rule = "required"
    · simp [isContainRequiredField, h]
    · have h2 : ¬ "required" = rule := fun hc => h hc.symm
      simp [isContainRequiredField, h, h2, ih]

theorem mem_nonRequiredLoop (inputs : GoMap Value) (k : String)
    (es : List (String × List String)) :
    k ∈ nonRequiredLoop inputs es ↔
      ∃ r, (k, r) ∈ es ∧ GoMap.get inputs k = none ∧ "required" ∉ r := by
  induction es with
  | nil => simp [nonRequiredLoop]
  | cons e rest ih =>
    obtain ⟨k1, r1⟩ := e
    have hreq : isContainRequiredField r1 = false ↔ "required" ∉ r1 := by
      rw [← isContainRequiredField_iff]; simp
    constructor
    · intro h
      unfold nonRequiredLoop at h
      by_cases hin : GoMap.get inputs k1 = none
      · by_cases hc : isContainRequiredField r1 = false
        · simp only [hin, Option.isNone_none, if_true, hc, Bool.not_false] at h
          rcases List.mem_cons.1 h with rfl | h
          · exact ⟨r1, List.mem_cons_self _ _, hin, hreq.1 hc⟩
          · obtain ⟨r, hm, hrest⟩ := ih.1 h
            exact ⟨r, List.mem_cons_of_mem _ hm, hrest⟩
        · have hc2 : isContainRequiredField r1 = true := by simpa using hc
          simp only [hin, Option.isNone_none, if_true, hc2, Bool.not_true,
            Bool.false_eq_true, if_false] at h
          obtain ⟨r, hm, hrest⟩ := ih.1 h
          exact ⟨r, List.mem_cons_of_mem _ hm, hrest⟩
      · have hin2 : (GoMap.get inputs k1).isNone = false := by
          cases hg : GoMap.get inputs k1 with
          | none => exact absurd hg hin
          | some x => rfl
        simp only [hin2, Bool.false_eq_true, if_false] at h
        obtain ⟨r, hm, hrest⟩ := ih.1 h
        exact ⟨r, List.mem_cons_of_mem _ hm, hrest⟩
    · rintro ⟨r, hm, hin, hr⟩
      unfold nonRequiredLoop
      rcases List.mem_cons.1 hm with heq | hm2
      · cases heq
        have hc : isContainRequiredField r1 = false := hreq.2 hr
        simp [hin, hc]
      · have hk : k ∈ nonRequiredLoop inputs rest := ih.2 ⟨r, hm2, hin, hr⟩
        by_cases hin1 : (GoMap.get inputs k1).isNone = true
        · cases hc : isContainRequiredField r1 with
          | false => simp only [hin1, if_true, Bool.not_false]; exact List.mem_cons_of_mem _ hk
          | true => simp only [hin1, if_true, Bool.not_true, Bool.false_eq_true, if_false]; exact hk
        · simp only [hin1, if_false]; exact hk

theorem mem_getNonRequiredFields (v : Validator) (k : String) :
    k ∈ v.getNonRequiredFields ↔
      v.Opts.RequiredDefault = false ∧
      ∃ r, (k, r) ∈ GoMap.entries v.Opts.Rules ∧ GoMap.get v.Opts.Request k = none ∧
        "required" ∉ r := by
  unfold Validator.getNonRequiredFields
  cases hrd : v.Opts.RequiredDefault with
  | false => simp [mem_nonRequiredLoop]
  | true => simp

theorem find_eq_some_iff {β : Type} (es : List (String × β)) (hnd : (es.map Prod.fst).Nodup)
    (k : String) (x : β) : GoMap.find es k = some x ↔ (k, x) ∈ es := by
  induction es with
  | nil => simp [GoMap.find]
  | cons e rest ih =>
    obtain ⟨k1, x1⟩ := e
    simp only [List.map_cons, List.nodup_cons] at hnd
    by_cases h : k1 = k
    · subst h
      simp only [GoMap.find, if_true, Option.some.injEq, List.mem_cons, Prod.mk.injEq, true_and]
      constructor
      · intro hx; exact Or.inl hx.symm
      · rintro (hx | hx)
        · exact hx.symm
        · exact absurd (List.mem_map.2 ⟨(k1, x), hx, rfl⟩) hnd.1
    · have h2 : ¬ k = k1 := fun hc => h hc.symm
      simp [GoMap.find, h, h2, ih hnd.2]

/-! ## Lemmas on the calls and on the shape of the error bag -/

theorem mem_fieldsCalls (v : Validator) (nr : List String) (field : String)
    (rules : List String) (rule : String) (es : List (String × List String))
    (hfield : (field, rules) ∈ es) (hactive : field ∉ nr) (hrule : rule ∈ rules) :
    (⟨field, rule, v.getCustomMessage field rule, v.requestValue field⟩ : Call) ∈
      fieldsCalls v nr es := by
  induction es with
  | nil => simp at hfield
  | cons e rest ih =>
    obtain ⟨f1, r1⟩ := e
    rcases List.mem_cons.1 hfield with heq | hm
    · cases heq
      simp only [fieldsCalls, hactive, if_false]
      exact List.mem_append_left _ (List.mem_map.2 ⟨rule, hrule, rfl⟩)
    · by_cases hex : f1 ∈ nr
      · simp only [fieldsCalls, hex, if_true]; exact ih hm
      · simp only [fieldsCalls, hex, if_false]; exact List.mem_append_right _ (ih hm)

theorem appendMessage_forall (P : String → List String → Prop)
    (errsBag : List (String × List String)) (field msg : String)
    (hbag : ∀ e ∈ errsBag, P e.1 e.2) (hnew : ∀ old, P field (old ++ [msg])) :
    ∀ e ∈ appendMessage errsBag field msg, P e.1 e.2 := by
  induction errsBag with
  | nil =>
    intro e he
    simp only [appendMessage, List.mem_singleton] at he
    subst he
    exact hnew []
  | cons e1 rest ih =>
    obtain ⟨k, msgs⟩ := e1
    intro e he
    by_cases hk : k = field
    · simp only [appendMessage, hk, if_true, List.mem_cons] at he
      rcases he with rfl | he
      · exact hnew msgs
      · exact hbag e (List.mem_cons_of_mem _ he)
    · simp only [appendMessage, hk, if_false, List.mem_cons] at he
      rcases he with rfl | he
      · exact hbag (k, msgs) (List.mem_cons_self _ _)
      · exact ih (fun x hx => hbag x (List.mem_cons_of_mem _ hx)) e he

theorem appendMessages_forall (P : String → List String → Prop) (field : String)
    (msgs : List String) (hne : msgs ≠ [] → ∀ old, old ≠ [] → P field old) :
    ∀ errsBag : List (String × List String), (∀ e ∈ errsBag, P e.1 e.2) →
      ∀ e ∈ appendMessages errsBag field msgs, P e.1 e.2 := by
  induction msgs with
  | nil => intro errsBag hbag; exact hbag
  | cons m ms ih =>
    intro errsBag hbag
    have hP : ∀ old, old ≠ [] → P field old := hne (by simp)
    exact ih (fun _ => hP) _ (appendMessage_forall P errsBag field m hbag
      (fun old => hP _ (by simp)))

theorem fieldMessages_ne_nil (reg : Registry) (v : Validator) (field : String)
    (rules : List String) (h : fieldMessages reg v field rules ≠ []) :
    hasFailingRule reg v field rules := by
  induction rules with
  | nil => simp [fieldMessages] at h
  | cons rule rest ih =>
    cases hc : checkRule reg rule (v.requestValue field) with
    | some d => exact ⟨rule, List.mem_cons_self _ _, by simp [hc]⟩
    | none =>
      have h2 : fieldMessages reg v field rest ≠ [] := by
        simpa [fieldMessages, hc] using h
      obtain ⟨r, hr, hs⟩ := ih h2
      exact ⟨r, List.mem_cons_of_mem _ hr, hs⟩

theorem fieldMessages_eq_nil (reg : Registry) (v : Validator) (field : String)
    (rules : List String)
    (h : ∀ rule ∈ rules, checkRule reg rule (v.requestValue field) = none) :
    fieldMessages reg v field rules = [] := by
  by_contra hne
  obtain ⟨r, hr, hs⟩ := fieldMessages_ne_nil reg v field rules hne
  rw [h r hr] at hs
  cases hs

/-- Every entry of the bag built by the fields loop is either an entry shape that the
starting bag already satisfied, or belongs to a processed field with a failing rule. -/
theorem processFields_forall (reg : Registry) (v : Validator) (nr : List String)
    (P : String → List String → Prop) (es : List (String × List String))
    (hP : ∀ field rules, (field, rules) ∈ es → field ∉ nr →
      hasFailingRule reg v field rules → ∀ old, old ≠ [] → P field old) :
    ∀ errsBag : List (String × List String), (∀ e ∈ errsBag, P e.1 e.2) →
      ∀ e ∈ processFields reg v nr es errsBag, P e.1 e.2 := by
  induction es with
  | nil => intro errsBag hbag; exact hbag
  | cons e1 rest ih =>
    obtain ⟨field, rules⟩ := e1
    have hrest : ∀ f rs, (f, rs) ∈ rest → f ∉ nr →
        hasFailingRule reg v f rs → ∀ old, old ≠ [] → P f old :=
      fun f rs hm => hP f rs (List.mem_cons_of_mem _ hm)
    intro errsBag hbag
    by_cases hex : field ∈ nr
    · simp only [processFields, hex, if_true]
      exact ih hrest errsBag hbag
    · simp only [processFields, hex, if_false]
      refine ih hrest _ (appendMessages_forall P field _ ?_ errsBag hbag)
      intro hne
      exact hP field rules (List.mem_cons_self _ _) hex (fieldMessages_ne_nil reg v field rules hne)

theorem processFields_all_pass (reg : Registry) (v : Validator) (nr : List String)
    (es : List (String × List String))
    (hpass : ∀ field rules, (field, rules) ∈ es → ∀ rule ∈ rules,
      checkRule reg rule (v.requestValue field) = none) :
    ∀ errsBag : List (String × List String), processFields reg v nr es errsBag = errsBag := by
  induction es with
  | nil => intro errsBag; rfl
  | cons e1 rest ih =>
    obtain ⟨field, rules⟩ := e1
    have hrest : ∀ f rs, (f, rs) ∈ rest → ∀ rule ∈ rs,
        checkRule reg rule (v.requestValue f) = none :=
      fun f rs hm => hpass f rs (List.mem_cons_of_mem _ hm)
    intro errsBag
    by_cases hex : field ∈ nr
    · simp only [processFields, hex, if_true]; exact ih hrest errsBag
    · simp only [processFields, hex, if_false]
      rw [fieldMessages_eq_nil reg v field rules (hpass field rules (List.mem_cons_self _ _))]
      exact ih hrest errsBag

/-! ## Lemmas on `getCustomMessage` -/

theorem containsChars_colon (cs : List Char) :
    strings.containsChars cs [':'] = true ↔ ':' ∈ cs := by
  induction cs with
  | nil => simp [strings.containsChars, List.isPrefixOf]
  | cons c cs ih =>
    simp only [strings.containsChars, List.isPrefixOf, Bool.or_eq_true, ih, List.mem_cons]
    simp

theorem firstPiece_colon (cs : List Char) :
    strings.firstPiece cs [':'] = cs.takeWhile (fun c => c != ':') := by
  induction cs with
  | nil => simp [strings.firstPiece]
  | cons c cs ih =>
    by_cases h : c = ':'
    · subst h; simp [strings.firstPiece, List.isPrefixOf, List.takeWhile]
    · have h2 : ¬ ':' = c := fun hc => h hc.symm
      simp [strings.firstPiece, List.isPrefixOf, List.takeWhile_cons, h, h2, ih]

theorem takeWhile_no_colon (cs : List Char) (h : ':' ∉ cs) :
    cs.takeWhile (fun c => c != ':') = cs := by
  rw [List.takeWhile_eq_self_iff]
  intro x hx
  have : x ≠ ':' := fun hc => h (hc ▸ hx)
  simpa using this

theorem colon_not_mem_takeWhile (cs : List Char) :
    ':' ∉ cs.takeWhile (fun c => c != ':') := by
  intro h
  have := List.mem_takeWhile_imp h
  simp at this

theorem split_at_colon (m : List Char) (h : ':' ∈ m) :
    ∃ t, m = m.takeWhile (fun c => c != ':') ++ ':' :: t ∧
      m.dropWhile (fun c => c != ':') = ':' :: t := by
  induction m with
  | nil => simp at h
  | cons c cs ih =>
    by_cases hc : c = ':'
    · subst hc
      exact ⟨cs, by simp [List.takeWhile], by simp [List.dropWhile]⟩
    · have hmem : ':' ∈ cs := by
        rcases List.mem_cons.1 h with h1 | h1
        · exact absurd h1.symm hc
        · exact h1
      obtain ⟨t, h1, h2⟩ := ih hmem
      have hp : (c != ':') = true := by simpa using hc
      refine ⟨t, ?_, ?_⟩
      · rw [List.takeWhile_cons, if_pos hp, List.cons_append, ← h1]
      · rw [List.dropWhile_cons, if_pos hp, h2]

theorem isPrefixOf_colon_iff (b m : List Char) (hb : ':' ∉ b) :
    (b ++ [':']).isPrefixOf m = true ↔
      ':' ∈ m ∧ m.takeWhile (fun c => c != ':') = b := by
  have hpos : ∀ a ∈ b, (fun c : Char => c != ':') a = true := by
    intro a ha
    have : a ≠ ':' := fun hc => hb (hc ▸ ha)
    simpa using this
  rw [List.isPrefixOf_iff_prefix]
  constructor
  · rintro ⟨t, rfl⟩
    refine ⟨by simp, ?_⟩
    rw [List.append_assoc, List.takeWhile_append_of_pos hpos]
    simp [List.takeWhile]
  · rintro ⟨hm, hb2⟩
    obtain ⟨t, h1, _⟩ := split_at_colon m hm
    rw [hb2] at h1
    exact ⟨t, by rw [h1]; simp⟩

theorem drop_after_colon (b m : List Char) (hb : ':' ∉ b)
    (h : (b ++ [':']).isPrefixOf m = true) :
    m.drop (b ++ [':']).length = (m.dropWhile (fun c => c != ':')).drop 1 := by
  have hpos : ∀ a ∈ b, (fun c : Char => c != ':') a = true := by
    intro a ha
    have : a ≠ ':' := fun hc => hb (hc ▸ ha)
    simpa using this
  rw [List.isPrefixOf_iff_prefix] at h
  obtain ⟨t, rfl⟩ := h
  rw [List.drop_left, List.append_assoc, List.dropWhile_append_of_pos hpos]
  simp [List.dropWhile]

/-- The rule after the stripping statement of the loop body is the bare rule name. -/
theorem stripped_rule_eq (rule : String) :
    (if strings.Contains rule ":" then strings.SplitFirst rule ":" else rule) = bareName rule := by
  by_cases h : ':' ∈ rule.data
  · have hc : strings.Contains rule ":" = true := (containsChars_colon rule.data).2 h
    rw [if_pos hc]
    exact String.ext (firstPiece_colon rule.data)
  · have hc : ¬ strings.Contains rule ":" = true := fun hc => h ((containsChars_colon rule.data).1 hc)
    rw [if_neg hc]
    exact String.ext (takeWhile_no_colon rule.data h).symm

theorem bareName_idem (rule : String) : bareName (bareName rule) = bareName rule :=
  String.ext (takeWhile_no_colon _ (colon_not_mem_takeWhile rule.data))

theorem HasPrefix_bare_iff (m rule : String) :
    strings.HasPrefix m (bareName rule ++ ":") = true ↔ isOverrideFor (bareName rule) m = true := by
  have h := isPrefixOf_colon_iff (bareName rule).data m.data (colon_not_mem_takeWhile rule.data)
  unfold strings.HasPrefix isOverrideFor
  rw [String.data_append]
  simp only [Bool.and_eq_true, decide_eq_true_eq]
  rw [h]
  constructor
  · rintro ⟨h1, h2⟩; exact ⟨h1, String.ext h2⟩
  · rintro ⟨h1, h2⟩; exact ⟨h1, congrArg String.data h2⟩

theorem TrimPrefix_bare (m rule : String)
    (h : strings.HasPrefix m (bareName rule ++ ":") = true) :
    strings.TrimPrefix m (bareName rule ++ ":") = messageText m := by
  unfold strings.TrimPrefix
  rw [if_pos h]
  unfold strings.HasPrefix at h
  rw [String.data_append, show (":" : String).data = [':'] from rfl] at h ⊢
  exact String.ext (drop_after_colon _ _ (colon_not_mem_takeWhile rule.data) h)

/-- The loop of `getCustomMessage` is the search for the first override that contains a `:`
and whose text before it is the bare rule name. -/
theorem getCustomMessageLoop_eq (msgList : List String) :
    ∀ rule, getCustomMessageLoop msgList rule = firstOverrideWithColon msgList rule := by
  induction msgList with
  | nil => intro rule; rfl
  | cons m rest ih =>
    intro rule
    unfold getCustomMessageLoop
    simp only [stripped_rule_eq]
    unfold firstOverrideWithColon
    by_cases h : strings.HasPrefix m (bareName rule ++ ":") = true
    · rw [if_pos h, TrimPrefix_bare m rule h, List.find?_cons_of_pos _ ((HasPrefix_bare_iff m rule).1 h)]
    · have h2 : ¬ isOverrideFor (bareName rule) m = true := fun hc => h ((HasPrefix_bare_iff m rule).2 hc)
      rw [if_neg h, List.find?_cons_of_neg _ h2, ih (bareName rule)]
      unfold firstOverrideWithColon
      rw [bareName_idem]

theorem find_override_filter (bare : String) (msgList : List String) :
    (msgList.filter fun m => decide (':' ∈ m.data)).find? (isOverrideFor bare) =
      msgList.find? (isOverrideFor bare) := by
  induction msgList with
  | nil => rfl
  | cons m rest ih =>
    by_cases hc : ':' ∈ m.data
    · rw [List.filter_cons_of_pos (by simpa using hc)]
      by_cases hm : isOverrideFor bare m = true
      · rw [List.find?_cons_of_pos _ hm, List.find?_cons_of_pos _ hm]
      · rw [List.find?_cons_of_neg _ hm, List.find?_cons_of_neg _ hm, ih]
    · have hm : ¬ isOverrideFor bare m = true := by
        simp [isOverrideFor, hc]
      rw [List.filter_cons_of_neg (by simpa using hc), List.find?_cons_of_neg _ hm, ih]

theorem find_override_first (bare m : String) (pre post : List String)
    (hpre : ∀ x ∈ pre, ¬ isOverrideFor bare x = true) (hm : isOverrideFor bare m = true) :
    (pre ++ m :: post).find? (isOverrideFor bare) = some m := by
  induction pre with
  | nil => exact List.find?_cons_of_pos _ hm
  | cons x rest ih =>
    rw [List.cons_append, List.find?_cons_of_neg _ (hpre x (List.mem_cons_self _ _))]
    exact ih (fun y hy => hpre y (List.mem_cons_of_mem _ hy))

/-- `Validate` returns exactly when its two guards and every rule lookup on a field that is
not exempt succeed. -/
theorem Validate_ok_iff (reg : Registry) (v : Validator) :
    (∃ bag, v.Validate reg = Except.ok bag) ↔
      GoMap.len v.Opts.Rules ≠ 0 ∧ v.Opts.Request ≠ none ∧
        allRegistered reg v.getNonRequiredFields (GoMap.entries v.Opts.Rules) := by
  constructor
  · rintro ⟨bag, hok⟩
    obtain ⟨h1, h2, h3, _, _⟩ := Validate_ok_inv reg v bag hok
    exact ⟨h1, h2, h3⟩
  · rintro ⟨h1, h2, h3⟩
    exact ⟨_, by rw [Validator.Validate, ValidateRun_ok reg v h1 h2 h3]⟩

/-! ## Lemmas on the entry of one field and on the iteration order -/

theorem find_eq_none_iff {β : Type} (es : List (String × β)) (k : String) :
    GoMap.find es k = none ↔ k ∉ es.map Prod.fst := by
  induction es with
  | nil => simp [GoMap.find]
  | cons e rest ih =>
    obtain ⟨k1, x1⟩ := e
    by_cases h : k1 = k
    · simp [GoMap.find, h]
    · have h2 : ¬ k = k1 := fun hc => h hc.symm
      simp [GoMap.find, h, h2, ih]

theorem find_perm {β : Type} (es es' : List (String × β)) (hnd : (es.map Prod.fst).Nodup)
    (hp : es'.Perm es) (k : String) : GoMap.find es' k = GoMap.find es k := by
  have hnd' : (es'.map Prod.fst).Nodup := (hp.map Prod.fst).nodup_iff.2 hnd
  apply Option.ext
  intro x
  simp only [Option.mem_def]
  rw [find_eq_some_iff es' hnd' k x, find_eq_some_iff es hnd k x]
  exact hp.mem_iff

/-- The entry of every field in the returned bag is the one computed from the options of
that field alone. -/
theorem Validate_entry (reg : Registry) (v : Validator)
    (hnd : (GoMap.keys v.Opts.Rules).Nodup) (bag : MapData)
    (hok : v.Validate reg = Except.ok bag) (f : String) :
    GoMap.get bag f =
      fieldEntry reg v.Opts.RequiredDefault (GoMap.get v.Opts.Rules f)
        (GoMap.get v.Opts.Request f) (GoMap.get v.Opts.Messages f) := by
  obtain ⟨_, _, _, _, hbag⟩ := Validate_ok_inv reg v bag hok
  rw [hbag]
  show GoMap.find (processFields reg v v.getNonRequiredFields (GoMap.entries v.Opts.Rules) []) f = _
  cases hr : GoMap.get v.Opts.Rules f with
  | none =>
    have hnk : f ∉ (GoMap.entries v.Opts.Rules).map Prod.fst := (find_eq_none_iff _ f).1 hr
    rw [find_processFields_frame reg v _ f _ [] (Or.inr hnk)]
    rfl
  | some rs =>
    have hmem : (f, rs) ∈ GoMap.entries v.Opts.Rules := (find_eq_some_iff _ hnd f rs).1 hr
    by_cases hex : f ∈ v.getNonRequiredFields
    · rw [find_processFields_frame reg v _ f _ [] (Or.inl hex)]
      obtain ⟨hrd, r, hm, hin, hnr⟩ := (mem_getNonRequiredFields v f).1 hex
      have hrs : r = rs := by
        have h1 := (find_eq_some_iff _ hnd f r).2 hm
        have h2 : GoMap.find (GoMap.entries v.Opts.Rules) f = some rs := hr
        rw [h1] at h2
        exact Option.some.inj h2
      subst hrs
      have hc : isContainRequiredField r = false := by
        cases hx : isContainRequiredField r with
        | false => rfl
        | true => exact absurd ((isContainRequiredField_iff r).1 hx) hnr
      simp only [fieldEntry]
      rw [if_pos ⟨hrd, hin, hc⟩]
      rfl
    · rw [find_processFields_entry reg v _ f rs _ [] hnd hmem hex]
      have hcond : ¬ (v.Opts.RequiredDefault = false ∧ GoMap.get v.Opts.Request f = none ∧
          isContainRequiredField rs = false) := by
        rintro ⟨hrd, hin, hc⟩
        apply hex
        refine (mem_getNonRequiredFields v f).2 ⟨hrd, rs, hmem, hin, ?_⟩
        intro hreq
        rw [(isContainRequiredField_iff rs).2 hreq] at hc
        cases hc
      simp only [fieldEntry]
      rw [if_neg hcond]
      rfl

theorem mem_getNonRequiredFields_withRulesOrder (v : Validator)
    (es : List (String × List String)) (hp : es.Perm (GoMap.entries v.Opts.Rules))
    (k : String) :
    k ∈ (v.withRulesOrder es).getNonRequiredFields ↔ k ∈ v.getNonRequiredFields := by
  rw [mem_getNonRequiredFields, mem_getNonRequiredFields]
  have hm : ∀ r, (k, r) ∈ GoMap.entries (v.withRulesOrder es).Opts.Rules ↔
      (k, r) ∈ GoMap.entries v.Opts.Rules := fun r => hp.mem_iff
  constructor
  · rintro ⟨hrd, r, h1, h2, h3⟩
    exact ⟨hrd, r, (hm r).1 h1, h2, h3⟩
  · rintro ⟨hrd, r, h1, h2, h3⟩
    exact ⟨hrd, r, (hm r).2 h1, h2, h3⟩

theorem Validate_ok_withRulesOrder (reg : Registry) (v : Validator)
    (es : List (String × List String)) (hp : es.Perm (GoMap.entries v.Opts.Rules)) :
    (∃ bag, (v.withRulesOrder es).Validate reg = Except.ok bag) ↔
      (∃ bag, v.Validate reg = Except.ok bag) := by
  rw [Validate_ok_iff, Validate_ok_iff]
  have hlen : GoMap.len (v.withRulesOrder es).Opts.Rules = GoMap.len v.Opts.Rules :=
    hp.length_eq
  have hreq : (v.withRulesOrder es).Opts.Request = v.Opts.Request := rfl
  have hall : allRegistered reg (v.withRulesOrder es).getNonRequiredFields
        (GoMap.entries (v.withRulesOrder es).Opts.Rules) ↔
      allRegistered reg v.getNonRequiredFields (GoMap.entries v.Opts.Rules) := by
    constructor
    · intro h f rs hm hn
      exact h f rs (hp.mem_iff.2 hm)
        (fun hc => hn ((mem_getNonRequiredFields_withRulesOrder v es hp f).1 hc))
    · intro h f rs hm hn
      exact h f rs (hp.mem_iff.1 hm)
        (fun hc => hn ((mem_getNonRequiredFields_withRulesOrder v es hp f).2 hc))
  rw [hlen, hreq, hall]

theorem fieldMessages_ne_nil_of_failing (reg : Registry) (v : Validator) (field : String)
    (rules : List String) (h : hasFailingRule reg v field rules) :
    fieldMessages reg v field rules ≠ [] := by
  obtain ⟨rule, hr, hs⟩ := h
  cases hc : checkRule reg rule (v.requestValue field) with
  | none => rw [hc] at hs; cases hs
  | some d =>
    have hmem : resolveMessage (v.getCustomMessage field rule) d ∈
        fieldMessages reg v field rules :=
      List.mem_filterMap.2 ⟨rule, hr, by rw [hc]; rfl⟩
    exact List.ne_nil_of_mem hmem

/-! ## Lemmas on validators that agree on what the loops read -/

theorem rulesLoop_congr (reg : Registry) (v w : Validator) (field : String)
    (hmsg : ∀ rule, w.getCustomMessage field rule = v.getCustomMessage field rule)
    (hval : w.requestValue field = v.requestValue field) (rules : List String) :
    ∀ (calls : List Call) (errsBag : List (String × List String)),
      rulesLoop reg w field rules calls errsBag = rulesLoop reg v field rules calls errsBag := by
  induction rules with
  | nil => intro calls errsBag; rfl
  | cons rule rest ih =>
    intro calls errsBag
    simp only [rulesLoop, hmsg, hval, ih]

theorem fieldsLoop_congr (reg : Registry) (v w : Validator) (nr : List String)
    (hmsg : ∀ field rule, w.getCustomMessage field rule = v.getCustomMessage field rule)
    (hval : ∀ field, w.requestValue field = v.requestValue field)
    (es : List (String × List String)) :
    ∀ (calls : List Call) (errsBag : List (String × List String)),
      fieldsLoop reg w nr es calls errsBag = fieldsLoop reg v nr es calls errsBag := by
  induction es with
  | nil => intro calls errsBag; rfl
  | cons e rest ih =>
    obtain ⟨field, rules⟩ := e
    intro calls errsBag
    simp only [fieldsLoop, rulesLoop_congr reg v w field (hmsg field) (hval field), ih]

theorem nonRequiredLoop_congr (inputs inputs' : GoMap Value)
    (es : List (String × List String))
    (h : ∀ k r, (k, r) ∈ es → isContainRequiredField r = false →
      (GoMap.get inputs' k).isNone = (GoMap.get inputs k).isNone) :
    nonRequiredLoop inputs' es = nonRequiredLoop inputs es := by
  induction es with
  | nil => rfl
  | cons e rest ih =>
    obtain ⟨k, r⟩ := e
    have hrest := ih (fun k1 r1 hm => h k1 r1 (List.mem_cons_of_mem _ hm))
    cases hc : isContainRequiredField r with
    | true => simp [nonRequiredLoop, hc, hrest]
    | false =>
      simp only [nonRequiredLoop, hc, h k r (List.mem_cons_self _ _) hc, hrest]

/-! ## The claims -/

/-- C1: when Rules is nil or empty, or Request is nil, `Validate` panics with
`errValidateArgsMismatch` instead of returning an error bag, whatever the registry and the
other options are, and it has dispatched no rule check by then. -/
theorem Validate_panics_without_rules_or_request (reg : Registry) (v : Validator)
    (h : v.Opts.Rules = none ∨ v.Opts.Rules = some [] ∨ v.Opts.Request = none) :
    v.Validate reg = Except.error Panic.validateArgsMismatch ∧
      (v.ValidateRun reg).calls = [] := by
  have hpre : GoMap.len v.Opts.Rules = 0 ∨ v.Opts.Request = none := by
    rcases h with h | h | h
    · exact Or.inl (by rw [h]; rfl)
    · exact Or.inl (by rw [h]; rfl)
    · exact Or.inr h
  simp [Validator.Validate, Validator.ValidateRun, hpre]

/-- Witness of C1 on `New(Options{})`, the validator of `TestValidator_Validate_panic`. -/
theorem Validate_panics_without_rules_or_request_witness :
    (panicValidator.Opts.Rules = none ∨ panicValidator.Opts.Rules = some [] ∨
        panicValidator.Opts.Request = none) ∧
      (panicValidator.Validate exampleRegistry = Except.error Panic.validateArgsMismatch ∧
        (panicValidator.ValidateRun exampleRegistry).calls = []) :=
  ⟨Or.inl rfl, Validate_panics_without_rules_or_request exampleRegistry panicValidator (Or.inl rfl)⟩

/-- C2 fails as stated: with Rules `{"age": ["nosuchrule"]}`, an empty non-nil Request and
RequiredDefault false, the rule `nosuchrule` is unregistered, yet `Validate` returns the
empty error bag, because the field `age` is exempt and skipped before its rules are looked
up. -/
theorem unregistered_rule_on_exempt_field_returns :
    GoMap.len unknownRuleOnExemptField.Opts.Rules ≠ 0 ∧
      unknownRuleOnExemptField.Opts.Request ≠ none ∧
      (∃ field rules rule, (field, rules) ∈ GoMap.entries unknownRuleOnExemptField.Opts.Rules ∧
        rule ∈ rules ∧ exampleRegistry.isRuleExist rule = false) ∧
      unknownRuleOnExemptField.Validate exampleRegistry = Except.ok (some []) :=
  ⟨by decide, by decide, ⟨"age", ["nosuchrule"], "nosuchrule", by decide, by decide, by rfl⟩, by rfl⟩

/-- C2 (amended): for a validator with non-empty Rules and non-nil Request, if some field of
Rules that is not in the set of `getNonRequiredFields` has a rule specification for which
`isRuleExist` is false, then `Validate` panics on an unregistered rule and returns no error
bag. -/
theorem Validate_panics_on_unregistered_rule (reg : Registry) (v : Validator)
    (hrules : GoMap.len v.Opts.Rules ≠ 0) (hreq : v.Opts.Request ≠ none)
    (field : String) (rules : List String) (rule : String)
    (hfield : (field, rules) ∈ GoMap.entries v.Opts.Rules)
    (hactive : field ∉ v.getNonRequiredFields)
    (hrule : rule ∈ rules) (hbad : reg.isRuleExist rule = false) :
    ∃ bad, reg.isRuleExist bad = false ∧
      v.Validate reg = Except.error (Panic.invalidRule bad) := by
  have hreg : ¬ allRegistered reg v.getNonRequiredFields (GoMap.entries v.Opts.Rules) := by
    intro hall
    have := hall field rules hfield hactive rule hrule
    rw [hbad] at this
    cases this
  obtain ⟨c1, f, rs, r, _, _, _, hf, he⟩ := ValidateRun_error reg v hrules hreq hreg
  exact ⟨r, hf, by simp [Validator.Validate, he]⟩

/-- Witness of the amended C2: the same unregistered rule, once RequiredDefault is true. -/
theorem Validate_panics_on_unregistered_rule_witness :
    GoMap.len unknownRuleOnRequiredField.Opts.Rules ≠ 0 ∧
      unknownRuleOnRequiredField.Opts.Request ≠ none ∧
      ("age", ["nosuchrule"]) ∈ GoMap.entries unknownRuleOnRequiredField.Opts.Rules ∧
      "age" ∉ unknownRuleOnRequiredField.getNonRequiredFields ∧
      exampleRegistry.isRuleExist "nosuchrule" = false ∧
      ∃ bad, exampleRegistry.isRuleExist bad = false ∧
        unknownRuleOnRequiredField.Validate exampleRegistry =
          Except.error (Panic.invalidRule bad) :=
  ⟨by decide, by decide, by decide, by decide, by rfl,
    Validate_panics_on_unregistered_rule exampleRegistry unknownRuleOnRequiredField
      (by decide) (by decide) "age" ["nosuchrule"] "nosuchrule" (by decide) (by decide)
      (by decide) (by rfl)⟩

/-- C3: in a validator whose Rules have pairwise distinct keys, a field name `k` is in the set
returned by `getNonRequiredFields` if and only if `k` is a key of Rules, RequiredDefault is
false, `k` is not a key of Request, and no rule specification in `Rules[k]` is the bare rule
name `required`. -/
theorem getNonRequiredFields_iff (v : Validator) (hnd : (GoMap.keys v.Opts.Rules).Nodup)
    (k : String) :
    k ∈ v.getNonRequiredFields ↔
      ∃ rules, GoMap.get v.Opts.Rules k = some rules ∧
        (v.Opts.RequiredDefault = false ∧ GoMap.get v.Opts.Request k = none ∧
          ∀ rule ∈ rules, rule ≠ "required") := by
  rw [mem_getNonRequiredFields]
  constructor
  · rintro ⟨hrd, r, hm, hin, hr⟩
    refine ⟨r, (find_eq_some_iff _ hnd k r).2 hm, hrd, hin, ?_⟩
    intro rule hrule hc
    exact hr (hc ▸ hrule)
  · rintro ⟨r, hget, hrd, hin, hr⟩
    exact ⟨hrd, r, (find_eq_some_iff _ hnd k r).1 hget, hin, fun hc => hr _ hc rfl⟩

/-- Witness of C3 on the validator of `TestValidator_Validate`, at the field `age`. -/
theorem getNonRequiredFields_iff_witness :
    (GoMap.keys testValidator.Opts.Rules).Nodup ∧
      ("age" ∈ testValidator.getNonRequiredFields ↔
        ∃ rules, GoMap.get testValidator.Opts.Rules "age" = some rules ∧
          (testValidator.Opts.RequiredDefault = false ∧
            GoMap.get testValidator.Opts.Request "age" = none ∧
            ∀ rule ∈ rules, rule ≠ "required")) :=
  ⟨by decide, getNonRequiredFields_iff testValidator (by decide) "age"⟩

/-- C4: with RequiredDefault false, a field that is declared in Rules, absent from Request
and carries no `required` rule has no entry in the error bag that `Validate` returns,
whatever its other rules are (a returning `Validate` already has non-empty Rules and a
non-nil Request). -/
theorem exempt_field_has_no_entry (reg : Registry) (v : Validator)
    (hrd : v.Opts.RequiredDefault = false)
    (field : String) (rules : List String)
    (hfield : (field, rules) ∈ GoMap.entries v.Opts.Rules)
    (habsent : GoMap.get v.Opts.Request field = none)
    (hnoreq : ∀ rule ∈ rules, rule ≠ "required")
    (bag : MapData) (hok : v.Validate reg = Except.ok bag) :
    GoMap.get bag field = none := by
  have hex : field ∈ v.getNonRequiredFields :=
    (mem_getNonRequiredFields v field).2 ⟨hrd, rules, hfield, habsent, fun hc => hnoreq _ hc rfl⟩
  obtain ⟨_, _, _, _, hbag⟩ := Validate_ok_inv reg v bag hok
  rw [hbag]
  exact find_processFields_frame reg v _ field _ [] (Or.inl hex)

/-- Witness of C4 on the validator of `TestValidator_Validate`: the field `age` is missing
from the request and its rule `between:5,16` rejects the nil value, yet the returned error
bag has no entry for `age`. -/
theorem exempt_field_has_no_entry_witness :
    testValidator.Opts.RequiredDefault = false ∧
      ("age", ["between:5,16"]) ∈ GoMap.entries testValidator.Opts.Rules ∧
      GoMap.get testValidator.Opts.Request "age" = none ∧
      checkRule exampleRegistry "between:5,16" Value.nil = some "is out of range" ∧
      testValidator.Validate exampleRegistry = Except.ok (some []) ∧
      GoMap.get (some []) "age" = (none : Option (List String)) :=
  ⟨by rfl, by decide, by rfl, by rfl, by rfl,
    exempt_field_has_no_entry exampleRegistry testValidator (by rfl)
      "age" ["between:5,16"] (by decide) (by rfl) (by decide) (some []) (by rfl)⟩

/-- C5: with RequiredDefault true, `getNonRequiredFields` returns the empty set; and when
`Validate` returns, then for every field declared in Rules (distinct keys) and absent from
Request, every rule of the field was dispatched on the nil value, and the field's entry in
the error bag is the list of the messages of the rules whose check fails on nil (no entry
when none fails). -/
theorem RequiredDefault_true_checks_absent_fields (reg : Registry) (v : Validator)
    (hrd : v.Opts.RequiredDefault = true) (hnd : (GoMap.keys v.Opts.Rules).Nodup) :
    v.getNonRequiredFields = [] ∧
      ∀ bag, v.Validate reg = Except.ok bag →
        ∀ field rules, (field, rules) ∈ GoMap.entries v.Opts.Rules →
          GoMap.get v.Opts.Request field = none →
          (∀ rule ∈ rules,
            (⟨field, rule, v.getCustomMessage field rule, Value.nil⟩ : Call) ∈
              (v.ValidateRun reg).calls) ∧
          GoMap.get bag field =
            (let msgs := rules.filterMap fun rule =>
              (checkRule reg rule Value.nil).map fun d =>
                if v.getCustomMessage field rule = "" then d else v.getCustomMessage field rule
            if msgs = [] then none else some msgs) := by
  have hnr : v.getNonRequiredFields = [] := by
    simp [Validator.getNonRequiredFields, hrd]
  refine ⟨hnr, ?_⟩
  intro bag hok field rules hfield habsent
  obtain ⟨_, _, _, hcalls, hbag⟩ := Validate_ok_inv reg v bag hok
  have hactive : field ∉ v.getNonRequiredFields := by rw [hnr]; simp
  have hval : v.requestValue field = Value.nil := by
    simp [Validator.requestValue, habsent]
  constructor
  · intro rule hrule
    rw [hcalls, ← hval]
    exact mem_fieldsCalls v _ field rules rule _ hfield hactive hrule
  · rw [hbag]
    have h := find_processFields_entry reg v v.getNonRequiredFields field rules
      (GoMap.entries v.Opts.Rules) [] hnd hfield hactive
    simp only [GoMap.get, GoMap.entries, Option.getD_some] at h ⊢
    rw [h]
    simp only [fieldMessages, hval, extendEntry, GoMap.find, Option.getD_none, List.nil_append]
    rfl

/-- Witness of C5: the validator of `TestValidator_Validate` with RequiredDefault true; the
missing field `age` is checked on nil and its failure is recorded. -/
theorem RequiredDefault_true_checks_absent_fields_witness :
    requiredDefaultValidator.Opts.RequiredDefault = true ∧
      (GoMap.keys requiredDefaultValidator.Opts.Rules).Nodup ∧
      requiredDefaultValidator.Validate exampleRegistry =
        Except.ok (some [("age", ["is out of range"])]) ∧
      ("age", ["between:5,16"]) ∈ GoMap.entries requiredDefaultValidator.Opts.Rules ∧
      GoMap.get requiredDefaultValidator.Opts.Request "age" = none ∧
      requiredDefaultValidator.getNonRequiredFields = [] ∧
      (⟨"age", "between:5,16", "", Value.nil⟩ : Call) ∈
        (requiredDefaultValidator.ValidateRun exampleRegistry).calls ∧
      GoMap.get (some [("age", ["is out of range"])]) "age" = some ["is out of range"] :=
  have h := RequiredDefault_true_checks_absent_fields exampleRegistry requiredDefaultValidator
    (by rfl) (by decide)
  have h2 := h.2 (some [("age", ["is out of range"])]) (by rfl) "age" ["between:5,16"]
    (by decide) (by rfl)
  ⟨by rfl, by decide, by rfl, by decide, by rfl, h.1, h2.1 "between:5,16" (by decide),
    h2.2.trans (by rfl)⟩

/-- C6: when `Validate` returns, then for every field of Rules (distinct keys) that is not
exempt, the field's entry in the error bag is exactly the list, in the order of the field's
rules, of one message per rule whose check fails on the field's request value (nil when
absent): the custom message of `getCustomMessage` when it is non-empty, the check's default
message otherwise. The entry is absent when no rule fails. -/
theorem error_bag_entry (reg : Registry) (v : Validator)
    (hnd : (GoMap.keys v.Opts.Rules).Nodup)
    (bag : MapData) (hok : v.Validate reg = Except.ok bag)
    (field : String) (rules : List String)
    (hfield : (field, rules) ∈ GoMap.entries v.Opts.Rules)
    (hactive : field ∉ v.getNonRequiredFields) :
    GoMap.get bag field =
      (let msgs := rules.filterMap fun rule =>
        (checkRule reg rule ((GoMap.get v.Opts.Request field).getD Value.nil)).map fun d =>
          if v.getCustomMessage field rule = "" then d else v.getCustomMessage field rule
      if msgs = [] then none else some msgs) := by
  obtain ⟨_, _, _, _, hbag⟩ := Validate_ok_inv reg v bag hok
  rw [hbag]
  have h := find_processFields_entry reg v v.getNonRequiredFields field rules
    (GoMap.entries v.Opts.Rules) [] hnd hfield hactive
  simp only [GoMap.get, GoMap.entries, Option.getD_some] at h ⊢
  rw [h]
  simp only [fieldMessages, extendEntry, GoMap.find, Option.getD_none, List.nil_append]
  rfl

/-- Witness of C6: the first rule of `zip` fails with its custom message, the second passes,
the third still fails and records its default message. -/
theorem error_bag_entry_witness :
    (GoMap.keys zipValidator.Opts.Rules).Nodup ∧
      zipValidator.Validate exampleRegistry =
        Except.ok (some [("zip", ["Zip must be 4 digits", "is out of range"])]) ∧
      ("zip", ["digits:4", "required", "between:1,3"]) ∈ GoMap.entries zipValidator.Opts.Rules ∧
      "zip" ∉ zipValidator.getNonRequiredFields ∧
      GoMap.get (some [("zip", ["Zip must be 4 digits", "is out of range"])]) "zip" =
        (let msgs := ["digits:4", "required", "between:1,3"].filterMap fun rule =>
          (checkRule exampleRegistry rule
            ((GoMap.get zipValidator.Opts.Request "zip").getD Value.nil)).map fun d =>
              if zipValidator.getCustomMessage "zip" rule = "" then d
              else zipValidator.getCustomMessage "zip" rule
        if msgs = [] then none else some msgs) :=
  ⟨by decide, by rfl, by decide, by decide,
    error_bag_entry exampleRegistry zipValidator (by decide) _ (by rfl) "zip"
      ["digits:4", "required", "between:1,3"] (by decide) (by decide)⟩

/-- C7: when `Validate` returns, every key of the error bag maps to a non-empty list, and
the key is a field of Rules that is not exempt and has a rule whose check fails on its
request value; so an exempt field, and a field all of whose rules pass, is absent from the
bag. -/
theorem error_bag_entries_nonempty (reg : Registry) (v : Validator)
    (bag : MapData) (hok : v.Validate reg = Except.ok bag) :
    ∀ field msgs, (field, msgs) ∈ GoMap.entries bag →
      msgs ≠ [] ∧
      ∃ rules, (field, rules) ∈ GoMap.entries v.Opts.Rules ∧
        field ∉ v.getNonRequiredFields ∧
        ∃ rule ∈ rules,
          (checkRule reg rule ((GoMap.get v.Opts.Request field).getD Value.nil)).isSome = true := by
  obtain ⟨_, _, _, _, hbag⟩ := Validate_ok_inv reg v bag hok
  intro field msgs hmem
  rw [hbag] at hmem
  have h := processFields_forall reg v v.getNonRequiredFields
    (fun f ms => ms ≠ [] ∧ ∃ rules, (f, rules) ∈ GoMap.entries v.Opts.Rules ∧
      f ∉ v.getNonRequiredFields ∧ hasFailingRule reg v f rules)
    (GoMap.entries v.Opts.Rules)
    (fun f rs hm hn hfail old hold => ⟨hold, rs, hm, hn, hfail⟩)
    [] (fun e he => by simp at he) (field, msgs) hmem
  exact h

/-- Witness of C7 on the validator `zipValidator`. -/
theorem error_bag_entries_nonempty_witness :
    zipValidator.Validate exampleRegistry =
        Except.ok (some [("zip", ["Zip must be 4 digits", "is out of range"])]) ∧
      ∀ field msgs,
        (field, msgs) ∈ GoMap.entries (some [("zip", ["Zip must be 4 digits", "is out of range"])]) →
        msgs ≠ [] ∧
        ∃ rules, (field, rules) ∈ GoMap.entries zipValidator.Opts.Rules ∧
          field ∉ zipValidator.getNonRequiredFields ∧
          ∃ rule ∈ rules,
            (checkRule exampleRegistry rule
              ((GoMap.get zipValidator.Opts.Request field).getD Value.nil)).isSome = true :=
  ⟨by rfl, error_bag_entries_nonempty exampleRegistry zipValidator _ (by rfl)⟩

/-- C8: with non-empty Rules, a non-nil Request and only registered rules, if every rule of
every declared field passes its check on the field's request value (nil when absent), then
`Validate` returns (it does not panic) and the error bag it returns has length 0. -/
theorem Validate_all_pass_returns_empty (reg : Registry) (v : Validator)
    (hrules : GoMap.len v.Opts.Rules ≠ 0) (hreq : v.Opts.Request ≠ none)
    (hreg : ∀ field rules, (field, rules) ∈ GoMap.entries v.Opts.Rules →
      ∀ rule ∈ rules, reg.isRuleExist rule = true)
    (hpass : ∀ field rules, (field, rules) ∈ GoMap.entries v.Opts.Rules →
      ∀ rule ∈ rules,
        checkRule reg rule ((GoMap.get v.Opts.Request field).getD Value.nil) = none) :
    ∃ bag, v.Validate reg = Except.ok bag ∧ GoMap.len bag = 0 := by
  have hall : allRegistered reg v.getNonRequiredFields (GoMap.entries v.Opts.Rules) :=
    fun f rs hm _ => hreg f rs hm
  refine ⟨some [], ?_, rfl⟩
  rw [Validator.Validate, ValidateRun_ok reg v hrules hreq hall]
  simp only
  rw [processFields_all_pass reg v _ _ hpass]

/-- Witness of C8: the request of `TestValidator_Validate` satisfies the rules of the fields
it holds. -/
theorem Validate_all_pass_returns_empty_witness :
    GoMap.len passingValidator.Opts.Rules ≠ 0 ∧ passingValidator.Opts.Request ≠ none ∧
      passingValidator.Validate exampleRegistry = Except.ok (some []) ∧
      ∃ bag, passingValidator.Validate exampleRegistry = Except.ok bag ∧ GoMap.len bag = 0 :=
  ⟨by decide, by decide, by rfl,
    Validate_all_pass_returns_empty exampleRegistry passingValidator (by decide) (by decide)
      (by
        intro field rules hmem
        simp only [passingValidator, New, GoMap.entries, Option.getD_some, List.mem_cons,
          Prod.mk.injEq, List.mem_nil_iff, or_false] at hmem
        rcases hmem with ⟨rfl, rfl⟩ | ⟨rfl, rfl⟩ | ⟨rfl, rfl⟩ <;>
          · intro rule hrule
            simp only [List.mem_singleton] at hrule
            subst hrule
            rfl)
      (by
        intro field rules hmem
        simp only [passingValidator, New, GoMap.entries, Option.getD_some, List.mem_cons,
          Prod.mk.injEq, List.mem_nil_iff, or_false] at hmem
        rcases hmem with ⟨rfl, rfl⟩ | ⟨rfl, rfl⟩ | ⟨rfl, rfl⟩ <;>
          · intro rule hrule
            simp only [List.mem_singleton] at hrule
            subst hrule
            rfl)⟩

/-- C9 fails as stated: with Messages `{"zip": ["digits", "digits:Zip must be 4 digits"]}`
and the rule `digits:4`, the first override whose bare name equals the bare rule name
`digits` is the override `digits`, whose message text is empty, so the search by bare name
gives the empty string; `getCustomMessage` passes that override over and returns the text of
the later one. -/
theorem colon_free_override_is_passed_over :
    GoMap.get colonFreeOverrideValidator.Opts.Messages "zip" =
        some ["digits", "digits:Zip must be 4 digits"] ∧
      bareName "digits" = bareName "digits:4" ∧
      firstOverrideByBareName ["digits", "digits:Zip must be 4 digits"] "digits:4" = "" ∧
      colonFreeOverrideValidator.getCustomMessage "zip" "digits:4" = "Zip must be 4 digits" :=
  ⟨by rfl, by decide, by decide, by decide⟩

/-- C9 (amended): `getCustomMessage(field, rule)` scans `Messages[field]` in order and returns
the message text (everything after the first `:`) of the first override that contains a `:`
and whose text before its first `:` equals the bare rule name (the rule specification's text
before its first `:`); overrides without a `:` and later overrides for the same rule name
are ignored, and it returns the empty string if no override matches or the field has no
overrides. -/
theorem getCustomMessage_eq_first_override (v : Validator) (field rule : String) :
    v.getCustomMessage field rule =
      match GoMap.get v.Opts.Messages field with
      | some msgList =>
        (match msgList.find? fun m =>
            decide (':' ∈ m.data) && decide (bareName m = bareName rule) with
          | some m => messageText m
          | none => "")
      | none => "" := by
  unfold Validator.getCustomMessage
  cases GoMap.get v.Opts.Messages field with
  | none => rfl
  | some msgList => exact getCustomMessageLoop_eq msgList rule

/-- C10: an override written for another rule name never applies: if no override of
`Messages[field]` that contains a `:` has the bare rule name as its text before the first
`:` (in particular if no override has a bare name equal to the rule's), then
`getCustomMessage(field, rule)` is the empty string; and with the single override
`digits:Zip must be 4 digits` for the field `zip`, the rule `digits:4` gets
`Zip must be 4 digits`. -/
theorem other_rule_override_never_applies (v : Validator) :
    (∀ field rule,
      (∀ msgList, GoMap.get v.Opts.Messages field = some msgList →
        ∀ m ∈ msgList, ':' ∈ m.data → bareName m ≠ bareName rule) →
      v.getCustomMessage field rule = "") ∧
    (GoMap.get v.Opts.Messages "zip" = some ["digits:Zip must be 4 digits"] →
      v.getCustomMessage "zip" "digits:4" = "Zip must be 4 digits") := by
  constructor
  · intro field rule h
    unfold Validator.getCustomMessage
    cases hget : GoMap.get v.Opts.Messages field with
    | none => rfl
    | some msgList =>
      simp only
      rw [getCustomMessageLoop_eq]
      unfold firstOverrideWithColon
      have hnone : msgList.find? (isOverrideFor (bareName rule)) = none := by
        rw [List.find?_eq_none]
        intro m hm hc
        simp only [isOverrideFor, Bool.and_eq_true, decide_eq_true_eq] at hc
        exact h msgList hget m hm hc.1 hc.2
      rw [hnone]
  · intro h
    unfold Validator.getCustomMessage
    rw [h]
    decide

/-- Witness of C10: the overrides `digits_between:...` and `dig:...` do not apply to the rule
`digits:4`, and the override `digits:Zip must be 4 digits` does. -/
theorem other_rule_override_never_applies_witness :
    (∀ msgList, GoMap.get otherRuleOverrideValidator.Opts.Messages "zip" = some msgList →
        ∀ m ∈ msgList, ':' ∈ m.data → bareName m ≠ bareName "digits:4") ∧
      otherRuleOverrideValidator.getCustomMessage "zip" "digits:4" = "" ∧
      GoMap.get zipValidator.Opts.Messages "zip" = some ["digits:Zip must be 4 digits"] ∧
      zipValidator.getCustomMessage "zip" "digits:4" = "Zip must be 4 digits" :=
  have hother : ∀ msgList,
      GoMap.get otherRuleOverrideValidator.Opts.Messages "zip" = some msgList →
        ∀ m ∈ msgList, ':' ∈ m.data → bareName m ≠ bareName "digits:4" := by
    intro msgList hget m hm _
    have hlist : msgList = ["digits_between:Zip has a bad length", "dig:Zip is bad"] := by
      have h2 : GoMap.get otherRuleOverrideValidator.Opts.Messages "zip" =
          some ["digits_between:Zip has a bad length", "dig:Zip is bad"] := by rfl
      rw [h2] at hget
      exact (Option.some.inj hget).symm
    subst hlist
    simp only [List.mem_cons, List.mem_singleton, List.mem_nil_iff, or_false] at hm
    rcases hm with rfl | rfl <;> decide
  ⟨hother,
    (other_rule_override_never_applies otherRuleOverrideValidator).1 "zip" "digits:4" hother,
    by rfl,
    (other_rule_override_never_applies zipValidator).2 (by rfl)⟩

/-- C12: `SetDefaultRequired(b)` makes RequiredDefault equal to `b` and leaves Data, Request,
Rules, Messages, TagIdentifier and FormSize as they were; `New(opts)` is a validator whose
Opts are `opts`, so on `Options{}` RequiredDefault is false until it is set. -/
theorem SetDefaultRequired_frame :
    (∀ (v : Validator) (b : Bool),
      (v.SetDefaultRequired b).Opts.RequiredDefault = b ∧
      (v.SetDefaultRequired b).Opts.Data = v.Opts.Data ∧
      (v.SetDefaultRequired b).Opts.Request = v.Opts.Request ∧
      (v.SetDefaultRequired b).Opts.Rules = v.Opts.Rules ∧
      (v.SetDefaultRequired b).Opts.Messages = v.Opts.Messages ∧
      (v.SetDefaultRequired b).Opts.TagIdentifier = v.Opts.TagIdentifier ∧
      (v.SetDefaultRequired b).Opts.FormSize = v.Opts.FormSize) ∧
    (∀ opts : Options, (New opts).Opts = opts) ∧
    (New zeroOptions).Opts.RequiredDefault = false ∧
    ((New zeroOptions).SetDefaultRequired true).Opts.RequiredDefault = true :=
  ⟨fun _ _ => ⟨rfl, rfl, rfl, rfl, rfl, rfl, rfl⟩, fun _ => rfl, rfl, rfl⟩

/-- C13: for a field without an entry in Messages, in particular when Messages is nil or
empty, `getCustomMessage(field, rule)` is the empty string for every rule specification. -/
theorem getCustomMessage_without_overrides (v : Validator) (field rule : String)
    (h : v.Opts.Messages = none ∨ v.Opts.Messages = some [] ∨
      GoMap.get v.Opts.Messages field = none) :
    v.getCustomMessage field rule = "" := by
  have hget : GoMap.get v.Opts.Messages field = none := by
    rcases h with h | h | h
    · rw [h]; rfl
    · rw [h]; rfl
    · exact h
  unfold Validator.getCustomMessage
  rw [hget]

/-- Witness of C13: the validator of `TestValidator_Validate` has nil Messages. -/
theorem getCustomMessage_without_overrides_witness :
    (testValidator.Opts.Messages = none ∨ testValidator.Opts.Messages = some [] ∨
        GoMap.get testValidator.Opts.Messages "zip" = none) ∧
      testValidator.getCustomMessage "zip" "digits:4" = "" :=
  ⟨Or.inl rfl, getCustomMessage_without_overrides testValidator "zip" "digits:4" (Or.inl rfl)⟩

/-- C15: `getCustomMessage` ignores the rule parameters: for a rule name `n` without `:` and
any parameter string `p` the rule `n:p` gets the message of `n`, and every rule
specification gets the message of its bare name. -/
theorem getCustomMessage_ignores_parameters (v : Validator) (field : String) :
    (∀ n p : String, ':' ∉ n.data →
      v.getCustomMessage field (n ++ ":" ++ p) = v.getCustomMessage field n) ∧
    (∀ r : String, v.getCustomMessage field r = v.getCustomMessage field (bareName r)) := by
  have hbare : ∀ r : String,
      v.getCustomMessage field r = v.getCustomMessage field (bareName r) := by
    intro r
    unfold Validator.getCustomMessage
    cases GoMap.get v.Opts.Messages field with
    | none => rfl
    | some msgList =>
      simp only
      rw [getCustomMessageLoop_eq, getCustomMessageLoop_eq]
      unfold firstOverrideWithColon
      rw [bareName_idem]
  refine ⟨?_, hbare⟩
  intro n p hn
  have hpos : ∀ a ∈ n.data, (fun c : Char => c != ':') a = true := by
    intro a ha
    have : a ≠ ':' := fun hc => hn (hc ▸ ha)
    simpa using this
  have h1 : bareName (n ++ ":" ++ p) = n := by
    apply String.ext
    show List.takeWhile (fun c => c != ':') (n ++ ":" ++ p).data = n.data
    rw [String.data_append, String.data_append, show (":" : String).data = [':'] from rfl,
      List.append_assoc, List.takeWhile_append_of_pos hpos]
    simp [List.takeWhile]
  rw [hbare (n ++ ":" ++ p), h1]

/-- Witness of C15: `digits:4` and `digits` get the same custom message for `zip`. -/
theorem getCustomMessage_ignores_parameters_witness :
    ':' ∉ ("digits" : String).data ∧
      zipValidator.getCustomMessage "zip" ("digits" ++ ":" ++ "4") =
        zipValidator.getCustomMessage "zip" "digits" ∧
      zipValidator.getCustomMessage "zip" "digits" = "Zip must be 4 digits" :=
  ⟨by decide,
    (getCustomMessage_ignores_parameters zipValidator "zip").1 "digits" "4" (by decide),
    by rfl⟩

/-- C17: `Validate` returns an error bag (does not panic) if and only if Rules is non-empty,
Request is non-nil, and every rule specification of every field of Rules that is not in the
set of `getNonRequiredFields` is registered. In particular the validator with Rules
`{"age": ["nosuchrule"]}` and the empty non-nil Request returns, although `nosuchrule` is
not registered. -/
theorem Validate_returns_iff :
    (∀ (reg : Registry) (v : Validator),
      (∃ bag, v.Validate reg = Except.ok bag) ↔
        (GoMap.len v.Opts.Rules ≠ 0 ∧ v.Opts.Request ≠ none ∧
          ∀ field rules, (field, rules) ∈ GoMap.entries v.Opts.Rules →
            field ∉ v.getNonRequiredFields → ∀ rule ∈ rules, reg.isRuleExist rule = true)) ∧
    (unknownRuleOnExemptField.Opts.Request = some [] ∧
      exampleRegistry.isRuleExist "nosuchrule" = false ∧
      unknownRuleOnExemptField.Validate exampleRegistry = Except.ok (some [])) :=
  ⟨fun reg v => Validate_ok_iff reg v, by rfl, by rfl, by rfl⟩

/-- C19: an override without `:` is never selected: `getCustomMessage` gives the same result
when the colon-free entries are removed from the field's override list; and when the first
override that matches the rule is `name:` with an empty text, the result is the empty
string, whatever overrides follow it. -/
theorem colon_free_overrides_never_selected :
    (∀ (v w : Validator) (field : String) (msgList : List String),
      GoMap.get v.Opts.Messages field = some msgList →
      GoMap.get w.Opts.Messages field = some (msgList.filter fun m => decide (':' ∈ m.data)) →
      ∀ rule, v.getCustomMessage field rule = w.getCustomMessage field rule) ∧
    (∀ (v : Validator) (field rule : String) (pre post : List String),
      GoMap.get v.Opts.Messages field = some (pre ++ (bareName rule ++ ":") :: post) →
      (∀ m ∈ pre, ¬ (':' ∈ m.data ∧ bareName m = bareName rule)) →
      v.getCustomMessage field rule = "") := by
  constructor
  · intro v w field msgList hv hw rule
    unfold Validator.getCustomMessage
    rw [hv, hw]
    simp only
    rw [getCustomMessageLoop_eq, getCustomMessageLoop_eq]
    unfold firstOverrideWithColon
    rw [find_override_filter]
  · intro v field rule pre post hv hpre
    unfold Validator.getCustomMessage
    rw [hv]
    simp only
    rw [getCustomMessageLoop_eq]
    unfold firstOverrideWithColon
    have hm : isOverrideFor (bareName rule) (bareName rule ++ ":") = true := by
      rw [← HasPrefix_bare_iff]
      unfold strings.HasPrefix
      simp
    have hpre2 : ∀ x ∈ pre, ¬ isOverrideFor (bareName rule) x = true := by
      intro x hx hc
      simp only [isOverrideFor, Bool.and_eq_true, decide_eq_true_eq] at hc
      exact hpre x hx hc
    rw [find_override_first _ _ pre post hpre2 hm]
    simp only
    apply String.ext
    show List.drop 1 (List.dropWhile (fun c => c != ':') (bareName rule ++ ":").data) = []
    have hpos : ∀ a ∈ (bareName rule).data, (fun c : Char => c != ':') a = true := by
      intro a ha
      have : a ≠ ':' := by
        intro hc
        subst hc
        exact colon_not_mem_takeWhile rule.data ha
      simpa using this
    rw [String.data_append, show (":" : String).data = [':'] from rfl,
      List.dropWhile_append_of_pos hpos]
    simp [List.dropWhile]

/-- Witness of C19: the colon-free override `digits` changes nothing, and the override
`digits:` hides the later `digits:Zip must be 4 digits`. -/
theorem colon_free_overrides_never_selected_witness :
    GoMap.get colonFreeOverrideValidator.Opts.Messages "zip" =
        some ["digits", "digits:Zip must be 4 digits"] ∧
      GoMap.get zipValidator.Opts.Messages "zip" =
        some (["digits", "digits:Zip must be 4 digits"].filter fun m => decide (':' ∈ m.data)) ∧
      colonFreeOverrideValidator.getCustomMessage "zip" "digits:4" =
        zipValidator.getCustomMessage "zip" "digits:4" ∧
      GoMap.get emptyTextOverrideValidator.Opts.Messages "zip" =
        some ([] ++ (bareName "digits:4" ++ ":") :: ["digits:Zip must be 4 digits"]) ∧
      emptyTextOverrideValidator.getCustomMessage "zip" "digits:4" = "" :=
  ⟨by rfl, by decide,
    colon_free_overrides_never_selected.1 colonFreeOverrideValidator zipValidator "zip"
      ["digits", "digits:Zip must be 4 digits"] (by rfl) (by decide) "digits:4",
    by decide,
    colon_free_overrides_never_selected.2 emptyTextOverrideValidator "zip" "digits:4" []
      ["digits:Zip must be 4 digits"] (by decide) (by simp)⟩

/-- C11: `Validate` leaves its receiver (hence Opts) unchanged, a second call on it has the
same outcome as the first (the bag is built afresh, not extended), and the outcome does not
depend on the order in which the Rules map (distinct keys) is visited: under any other
order `Validate` aborts if and only if it aborts under the first, and when both return, the
two error bags map every key to the same message list. -/
theorem Validate_is_pure (reg : Registry) (v : Validator)
    (hnd : (GoMap.keys v.Opts.Rules).Nodup) :
    (v.ValidateCall reg).1 = v ∧
    ((v.ValidateCall reg).1.ValidateCall reg).2 = (v.ValidateCall reg).2 ∧
    ∀ es : List (String × List String), es.Perm (GoMap.entries v.Opts.Rules) →
      ((∃ e, (v.withRulesOrder es).Validate reg = Except.error e) ↔
        (∃ e, v.Validate reg = Except.error e)) ∧
      ∀ bag1 bag2, v.Validate reg = Except.ok bag1 →
        (v.withRulesOrder es).Validate reg = Except.ok bag2 →
        ∀ k, GoMap.get bag2 k = GoMap.get bag1 k := by
  refine ⟨rfl, rfl, ?_⟩
  intro es hp
  constructor
  · have hiff := Validate_ok_withRulesOrder reg v es hp
    have hsplit : ∀ r : Except Panic MapData, (∃ e, r = Except.error e) ↔ ¬ ∃ bag, r = Except.ok bag := by
      intro r
      cases r with
      | error e => simp
      | ok b => simp
    rw [hsplit, hsplit, hiff]
  · intro bag1 bag2 h1 h2 k
    have hnd2 : (GoMap.keys (v.withRulesOrder es).Opts.Rules).Nodup :=
      (hp.map Prod.fst).nodup_iff.2 hnd
    rw [Validate_entry reg v hnd bag1 h1 k, Validate_entry reg _ hnd2 bag2 h2 k]
    have hr : GoMap.get (v.withRulesOrder es).Opts.Rules k = GoMap.get v.Opts.Rules k :=
      find_perm _ _ hnd hp k
    rw [hr]
    rfl

/-- Witness of C11: the two orders of the rules `name` and `zip` give bags with the entries
in different positions and the same entry under every key. -/
theorem Validate_is_pure_witness :
    (GoMap.keys twoFailuresValidator.Opts.Rules).Nodup ∧
      [("zip", ["digits:4"]), ("name", ["required"])].Perm
        (GoMap.entries twoFailuresValidator.Opts.Rules) ∧
      twoFailuresValidator.Validate exampleRegistry =
        Except.ok (some [("name", ["is required"]), ("zip", ["has the wrong number of digits"])]) ∧
      (twoFailuresValidator.withRulesOrder
          [("zip", ["digits:4"]), ("name", ["required"])]).Validate exampleRegistry =
        Except.ok (some [("zip", ["has the wrong number of digits"]), ("name", ["is required"])]) ∧
      ∀ k, GoMap.get (some [("zip", ["has the wrong number of digits"]), ("name", ["is required"])]) k =
        GoMap.get (some [("name", ["is required"]), ("zip", ["has the wrong number of digits"])]) k :=
  ⟨by decide, List.Perm.swap _ _ _, by rfl, by rfl,
    ((Validate_is_pure exampleRegistry twoFailuresValidator (by decide)).2.2
      [("zip", ["digits:4"]), ("name", ["required"])] (List.Perm.swap _ _ _)).2 _ _
      (by rfl) (by rfl)⟩

/-- C14: fields are validated independently: for two validators (Rules with distinct keys)
with the same RequiredDefault on which `Validate` returns, and a field `f` for which
`Rules[f]`, `Messages[f]` and `Request[f]` (presence and value) agree in both, the error bag
entry for `f` is the same in both, whatever the other fields hold. -/
theorem fields_validated_independently (reg : Registry) (v w : Validator)
    (hv : (GoMap.keys v.Opts.Rules).Nodup) (hw : (GoMap.keys w.Opts.Rules).Nodup)
    (hrd : v.Opts.RequiredDefault = w.Opts.RequiredDefault) (f : String)
    (hrules : GoMap.get v.Opts.Rules f = GoMap.get w.Opts.Rules f)
    (hmsgs : GoMap.get v.Opts.Messages f = GoMap.get w.Opts.Messages f)
    (hreq : GoMap.get v.Opts.Request f = GoMap.get w.Opts.Request f)
    (bagv bagw : MapData)
    (hokv : v.Validate reg = Except.ok bagv) (hokw : w.Validate reg = Except.ok bagw) :
    GoMap.get bagv f = GoMap.get bagw f := by
  rw [Validate_entry reg v hv bagv hokv f, Validate_entry reg w hw bagw hokw f,
    hrd, hrules, hmsgs, hreq]

/-- Witness of C14: the field `zip` has the same entry with and without the failing field
`name` next to it. -/
theorem fields_validated_independently_witness :
    (GoMap.keys zipValidator.Opts.Rules).Nodup ∧
      (GoMap.keys zipAndNameValidator.Opts.Rules).Nodup ∧
      zipValidator.Validate exampleRegistry =
        Except.ok (some [("zip", ["Zip must be 4 digits", "is out of range"])]) ∧
      zipAndNameValidator.Validate exampleRegistry =
        Except.ok (some [("name", ["Who are you?"]),
          ("zip", ["Zip must be 4 digits", "is out of range"])]) ∧
      GoMap.get (some [("zip", ["Zip must be 4 digits", "is out of range"])]) "zip" =
        GoMap.get (some [("name", ["Who are you?"]),
          ("zip", ["Zip must be 4 digits", "is out of range"])]) "zip" :=
  ⟨by decide, by decide, by rfl, by rfl,
    fields_validated_independently exampleRegistry zipValidator zipAndNameValidator
      (by decide) (by decide) (by rfl) "zip" (by rfl) (by rfl) (by rfl) _ _ (by rfl) (by rfl)⟩

/-- C16 fails as stated: with Rules `{"option": ["nosuchrule", "required"]}` and Request
`{"option": nil}` the field is present with the value nil and is not exempt, but `Validate`
panics on the first rule: no rule was run on the nil value, `required` included, and no
error bag is returned although the `required` check rejects nil. -/
theorem null_field_rules_not_run_on_abort :
    GoMap.get nullValueAbortValidator.Opts.Request "option" = some Value.nil ∧
      ("option", ["nosuchrule", "required"]) ∈
        GoMap.entries nullValueAbortValidator.Opts.Rules ∧
      "option" ∉ nullValueAbortValidator.getNonRequiredFields ∧
      checkRule exampleRegistry "required" Value.nil = some "is required" ∧
      nullValueAbortValidator.Validate exampleRegistry =
        Except.error (Panic.invalidRule "nosuchrule") ∧
      (nullValueAbortValidator.ValidateRun exampleRegistry).calls = [] :=
  ⟨by rfl, by decide, by decide, by rfl, by rfl, by rfl⟩

/-- C16 (amended): a field whose key is present in Request is never in the set of
`getNonRequiredFields`, whatever RequiredDefault and its rules are; and when `Validate`
returns and the field's value is nil, every rule of the field was run on the nil value, so
that (Rules with distinct keys) a `required` rule whose check rejects nil gives the field a
non-empty entry in a non-empty error bag. -/
theorem present_field_is_never_exempt (reg : Registry) (v : Validator) (k : String)
    (hk : GoMap.get v.Opts.Request k ≠ none) :
    k ∉ v.getNonRequiredFields ∧
    ∀ bag, v.Validate reg = Except.ok bag →
      GoMap.get v.Opts.Request k = some Value.nil →
      ∀ rules, (k, rules) ∈ GoMap.entries v.Opts.Rules →
        (∀ rule ∈ rules,
          (⟨k, rule, v.getCustomMessage k rule, Value.nil⟩ : Call) ∈
            (v.ValidateRun reg).calls) ∧
        ((GoMap.keys v.Opts.Rules).Nodup → "required" ∈ rules →
          (checkRule reg "required" Value.nil).isSome = true →
          GoMap.len bag ≠ 0 ∧ ∃ msgs, GoMap.get bag k = some msgs ∧ msgs ≠ []) := by
  have hactive : k ∉ v.getNonRequiredFields := by
    intro hc
    obtain ⟨_, _, _, hin, _⟩ := (mem_getNonRequiredFields v k).1 hc
    exact hk hin
  refine ⟨hactive, ?_⟩
  intro bag hok hnil rules hmem
  obtain ⟨_, _, _, hcalls, hbag⟩ := Validate_ok_inv reg v bag hok
  have hval : v.requestValue k = Value.nil := by
    simp [Validator.requestValue, hnil]
  constructor
  · intro rule hrule
    rw [hcalls, ← hval]
    exact mem_fieldsCalls v _ k rules rule _ hmem hactive hrule
  · intro hnd hreq hrej
    have hfail : hasFailingRule reg v k rules := ⟨"required", hreq, by rw [hval]; exact hrej⟩
    have hne := fieldMessages_ne_nil_of_failing reg v k rules hfail
    have hentry := find_processFields_entry reg v v.getNonRequiredFields k rules
      (GoMap.entries v.Opts.Rules) [] hnd hmem hactive
    have hget : GoMap.get bag k = some (fieldMessages reg v k rules) := by
      rw [hbag]
      show GoMap.find (processFields reg v v.getNonRequiredFields
        (GoMap.entries v.Opts.Rules) []) k = _
      rw [hentry]
      simp [extendEntry, hne, GoMap.find]
    refine ⟨?_, fieldMessages reg v k rules, hget, hne⟩
    intro hlen
    rw [hbag] at hlen hget
    have hnil2 : processFields reg v v.getNonRequiredFields (GoMap.entries v.Opts.Rules) [] = [] :=
      List.length_eq_zero.1 hlen
    rw [hnil2] at hget
    cases hget

/-- Witness of C16 (amended) on the validator of `TestValidator_Validate_NULLValue`: the
null fields `option` and `active` fail their `required` rule. -/
theorem present_field_is_never_exempt_witness :
    GoMap.get nullValueValidator.Opts.Request "option" ≠ none ∧
      "option" ∉ nullValueValidator.getNonRequiredFields ∧
      nullValueValidator.Validate exampleRegistry =
        Except.ok (some [("option", ["is required"]), ("active", ["is required"])]) ∧
      (⟨"option", "required", "", Value.nil⟩ : Call) ∈
        (nullValueValidator.ValidateRun exampleRegistry).calls ∧
      GoMap.len (some [("option", ["is required"]), ("active", ["is required"])]) ≠ 0 :=
  have h := present_field_is_never_exempt exampleRegistry nullValueValidator "option" (by decide)
  have h2 := h.2 (some [("option", ["is required"]), ("active", ["is required"])]) (by rfl)
    (by rfl) ["required"] (by decide)
  ⟨by decide, h.1, by rfl, h2.1 "required" (by decide),
    (h2.2 (by decide) (by decide) (by rfl)).1⟩

/-- C18: for a validator with RequiredDefault true, or whose field `k` carries a `required`
rule (Rules with distinct keys), `Validate` on a non-nil Request without the key `k` and
`Validate` on that Request extended with `k` mapped to nil have the same outcome: the same
panic or the same error bag. -/
theorem absent_and_null_indistinguishable (reg : Registry) (v : Validator) (k : String)
    (req req' : List (String × Value))
    (hreq : v.Opts.Request = some req) (habsent : GoMap.find req k = none)
    (hnull : GoMap.find req' k = some Value.nil)
    (hother : ∀ f, f ≠ k → GoMap.find req' f = GoMap.find req f)
    (hcase : v.Opts.RequiredDefault = true ∨
      ((GoMap.keys v.Opts.Rules).Nodup ∧
        ∃ rules, GoMap.get v.Opts.Rules k = some rules ∧ "required" ∈ rules)) :
    (v.withRequest (some req')).Validate reg = v.Validate reg := by
  have hmsg : ∀ field rule, (v.withRequest (some req')).getCustomMessage field rule =
      v.getCustomMessage field rule := fun _ _ => rfl
  have hval : ∀ field, (v.withRequest (some req')).requestValue field = v.requestValue field := by
    intro field
    show (GoMap.find req' field).getD Value.nil = (GoMap.get v.Opts.Request field).getD Value.nil
    rw [hreq]
    show _ = (GoMap.find req field).getD Value.nil
    by_cases hf : field = k
    · subst hf; rw [hnull, habsent]; rfl
    · rw [hother field hf]
  have hnr : (v.withRequest (some req')).getNonRequiredFields = v.getNonRequiredFields := by
    show (if (!v.Opts.RequiredDefault) = true then
        nonRequiredLoop (some req') (GoMap.entries v.Opts.Rules) else []) =
      (if (!v.Opts.RequiredDefault) = true then
        nonRequiredLoop v.Opts.Request (GoMap.entries v.Opts.Rules) else [])
    rcases hcase with hrd | ⟨hnd, rules, hget, hrequired⟩
    · simp [hrd]
    · have hloop : nonRequiredLoop (some req') (GoMap.entries v.Opts.Rules) =
          nonRequiredLoop v.Opts.Request (GoMap.entries v.Opts.Rules) := by
        apply nonRequiredLoop_congr
        intro f r hm hc
        rw [hreq]
        show (GoMap.find req' f).isNone = (GoMap.find req f).isNone
        by_cases hf : f = k
        · subst hf
          have hr : GoMap.find (GoMap.entries v.Opts.Rules) f = some r :=
            (find_eq_some_iff _ hnd f r).2 hm
          have hrs : rules = r := by
            have h2 : GoMap.find (GoMap.entries v.Opts.Rules) f = some rules := hget
            rw [hr] at h2
            exact (Option.some.inj h2).symm
          subst hrs
          rw [(isContainRequiredField_iff rules).2 hrequired] at hc
          cases hc
        · rw [hother f hf]
      rw [hloop]
  unfold Validator.Validate Validator.ValidateRun
  rw [hnr]
  have hguard : (GoMap.len (v.withRequest (some req')).Opts.Rules = 0 ∨
      (v.withRequest (some req')).Opts.Request = none) ↔
      (GoMap.len v.Opts.Rules = 0 ∨ v.Opts.Request = none) := by
    show (GoMap.len v.Opts.Rules = 0 ∨ some req' = none) ↔ _
    rw [hreq]
    simp
  simp only [hguard]
  have hrules : GoMap.entries (v.withRequest (some req')).Opts.Rules =
      GoMap.entries v.Opts.Rules := rfl
  rw [hrules, fieldsLoop_congr reg v (v.withRequest (some req')) _ hmsg hval]

/-- Witness of C18: the validator of `TestValidator_Validate` with RequiredDefault true gives
the same error bag when the missing field `age` is added to the request as nil. -/
theorem absent_and_null_indistinguishable_witness :
    requiredDefaultValidator.Opts.RequiredDefault = true ∧
      GoMap.get requiredDefaultValidator.Opts.Request "age" = none ∧
      requiredDefaultValidator.Validate exampleRegistry =
        Except.ok (some [("age", ["is out of range"])]) ∧
      (requiredDefaultValidator.withRequest
          (some [("age", Value.nil), ("name", Value.str "John Doe"),
            ("username", Value.str "jhondoe"), ("email", Value.str "john@mail.com"),
            ("zip", Value.str "8233")])).Validate exampleRegistry =
        requiredDefaultValidator.Validate exampleRegistry :=
  ⟨by rfl, by rfl, by rfl,
    absent_and_null_indistinguishable exampleRegistry requiredDefaultValidator "age"
      [("name", Value.str "John Doe"), ("username", Value.str "jhondoe"),
        ("email", Value.str "john@mail.com"), ("zip", Value.str "8233")]
      [("age", Value.nil), ("name", Value.str "John Doe"), ("username", Value.str "jhondoe"),
        ("email", Value.str "john@mail.com"), ("zip", Value.str "8233")]
      (by rfl) (by rfl) (by rfl)
      (fun f hf => by
        have hne : ¬ "age" = f := fun hc => hf hc.symm
        simp [GoMap.find, hne])
      (Or.inl (by rfl))⟩

end govalidator
